import Mathlib

set_option maxHeartbeats 1000000
set_option maxRecDepth 100000

/-!
Shallow embedding of the fervid template transform
(crates/fervid_transform/src/template/ast_transform.rs) together with the
parts of fervid_core it operates on, and a model of the builtin code
generation exercised by crates/fervid_codegen/src/builtins/transition_group.rs.

Rust data is translated structurally: tagged unions become inductives,
structs become structures, `Option`/`Box` become `Option`/plain nesting,
`u128` bit masks become `Nat` with the shift-overflow check of the Rust
shift operator made explicit (an out-of-range shift aborts the whole
computation, returning `none`).
-/

/-- Template expression model.  The expression AST and the binding resolver
(`transform_expr` in fervid_transform's expr_transform module) are outside
the analysed sources.  Per the spec (section 4.1) `transform_expr` rewrites
the free identifiers of the expression and returns `true` iff the expression
contains at least one dynamic (non-constant) reference.  We model an
expression by its printed source text together with that dynamicity verdict. -/
structure Expr where
  src : String
  isDynamic : Bool
deriving DecidableEq, Repr

/-- Modelled from the spec: `transform_expr(expr, scope) -> was_dynamic` of
the binding resolver (section 4.1), which is not among the analysed source
files.  The identifier rewriting is modelled as the identity on the printed
form; the returned flag is the dynamicity verdict carried by the expression. -/
def transform_expr (e : Expr) (_scope : Nat) : Expr × Bool :=
  (e, e.isDynamic)

/-- Either a static string or a computed expression (fervid_core `StrOrExpr`). -/
inductive StrOrExpr where
  | Str (s : String)
  | Expr (e : Expr)
deriving DecidableEq, Repr

/-- fervid_core `VBindDirective` (fields not read by the analysed code are omitted). -/
structure VBindDirective where
  argument : Option StrOrExpr
  value : Expr
deriving DecidableEq, Repr

/-- fervid_core `VOnDirective`. -/
structure VOnDirective where
  event : Option StrOrExpr
  handler : Option Expr
deriving DecidableEq, Repr

/-- fervid_core `AttributeOrBinding`. -/
inductive AttributeOrBinding where
  | RegularAttribute (name : String) (value : String)
  | VBind (d : VBindDirective)
  | VOn (d : VOnDirective)
deriving DecidableEq, Repr

/-- Modelled from the spec: fervid_core's `check_attribute_name` helper
(used by the analysed code for the `key` and `is` lookups) is not among the
analysed sources.  An attribute matches a name when it is a regular
attribute of that name or a `v-bind` whose argument is that literal name. -/
def check_attribute_name (attr : AttributeOrBinding) (expected : String) : Bool :=
  match attr with
  | .RegularAttribute name _ => name == expected
  | .VBind d =>
    match d.argument with
    | some (.Str name) => name == expected
    | _ => false
  | _ => false

/-- The patch-flag bitset (fervid_core `PatchFlags`).  Each relevant bit of
the runtime bitmask is one Boolean field; `cls` is the `Class` bit. -/
structure PatchFlags where
  text : Bool
  cls : Bool
  style : Bool
  props : Bool
  fullProps : Bool
  stableFragment : Bool
  keyedFragment : Bool
  unkeyedFragment : Bool
deriving DecidableEq, Repr

/-- The all-clear bitset (`PatchFlags::default()`). -/
def PatchFlags.empty : PatchFlags :=
  ⟨false, false, false, false, false, false, false, false⟩

/-- fervid_core `PatchHints`: the flag bitset plus the dynamic-prop name list. -/
structure PatchHints where
  flags : PatchFlags
  props : List String
deriving DecidableEq, Repr

/-- `PatchHints::default()`. -/
def PatchHints.empty : PatchHints := ⟨PatchFlags.empty, []⟩

/-- fervid_core `BuiltinType`. -/
inductive BuiltinType where
  | Component
  | KeepAlive
  | Slot
  | Suspense
  | Teleport
  | Transition
  | TransitionGroup
deriving DecidableEq, Repr

/-- fervid_core `ElementKind`. -/
inductive ElementKind where
  | Element
  | Builtin (t : BuiltinType)
  | Component
deriving DecidableEq, Repr

/-- fervid_core `VForDirective`: the destructuring pattern is modelled by
the list of names it binds, the iterable by an expression. -/
structure VForDirective where
  itervar : List String
  iterable : Expr
  patch_flags : PatchFlags
deriving DecidableEq, Repr

/-- fervid_core `VSlotDirective`; the slot-prop pattern is modelled by the
names it binds. -/
structure VSlotDirective where
  slot_name : Option StrOrExpr
  value : Option (List String)
deriving DecidableEq, Repr

/-- fervid_core `VueDirectives`: one slot per directive kind, as read by the
analysed code (slots it never reads are omitted). -/
structure VueDirectives where
  v_if : Option Expr
  v_else_if : Option Expr
  v_else : Option Unit
  v_for : Option VForDirective
  v_slot : Option VSlotDirective
  v_html : Option Expr
  v_memo : Option Expr
  v_show : Option Expr
  v_text : Option Expr
deriving DecidableEq, Repr

/-- `VueDirectives::default()`. -/
def VueDirectives.empty : VueDirectives :=
  ⟨none, none, none, none, none, none, none, none, none⟩

/-- fervid_core `StartingTag`. -/
structure StartingTag where
  tag_name : String
  attributes : List AttributeOrBinding
  directives : Option VueDirectives
deriving DecidableEq, Repr

/-- fervid_core `Interpolation`. -/
structure Interpolation where
  value : Expr
  template_scope : Nat
  patch_flag : Bool
deriving DecidableEq, Repr

/-- fervid_core `TemplateScope`; `vars` renders the source field `variables`
(whose name is reserved in Lean). -/
structure TemplateScope where
  vars : List String
  parent : Nat
deriving DecidableEq, Repr

/-- fervid_core `BindingsHelper`, restricted to the state the analysed
template pass reads and writes through this model (the scope table). -/
structure BindingsHelper where
  template_scopes : List TemplateScope
deriving DecidableEq, Repr

/-- `BindingsHelper::default()`. -/
def BindingsHelper.empty : BindingsHelper := ⟨[]⟩

/-- Modelled from the spec: `collect_variables(pattern, scope)` (section 4.1,
not among the analysed sources) records every name bound by the pattern into
the given scope's variable list. -/
def collectVariablesAt (h : BindingsHelper) (scope : Nat) (pattern : List String) : BindingsHelper :=
  ⟨h.template_scopes.mapIdx fun i s =>
    if i = scope then { s with vars := s.vars ++ pattern } else s⟩

mutual

/-- fervid_core `ElementNode` (source span omitted). -/
inductive ElementNode where
  | mk (kind : ElementKind) (starting_tag : StartingTag) (children : List Node)
      (template_scope : Nat) (patch_hints : PatchHints) : ElementNode

/-- fervid_core `Node`. -/
inductive Node where
  | Element (e : ElementNode) : Node
  | Text (s : String) : Node
  | Comment (s : String) : Node
  | Interpolation (i : Interpolation) : Node
  | ConditionalSeq (c : ConditionalNodeSequence) : Node

/-- fervid_core `Conditional`. -/
inductive Conditional where
  | mk (condition : Expr) (node : ElementNode) : Conditional

/-- fervid_core `ConditionalNodeSequence`. -/
inductive ConditionalNodeSequence where
  | mk (if_node : Conditional) (else_if_nodes : List Conditional)
      (else_node : Option ElementNode) : ConditionalNodeSequence

end

def ElementNode.kind : ElementNode → ElementKind
  | .mk k _ _ _ _ => k

def ElementNode.starting_tag : ElementNode → StartingTag
  | .mk _ st _ _ _ => st

def ElementNode.children : ElementNode → List Node
  | .mk _ _ c _ _ => c

def ElementNode.template_scope : ElementNode → Nat
  | .mk _ _ _ s _ => s

def ElementNode.patch_hints : ElementNode → PatchHints
  | .mk _ _ _ _ p => p

/-- Replace the directive block of an element (models a write through
`element.starting_tag.directives`). -/
def ElementNode.setDirectives : ElementNode → Option VueDirectives → ElementNode
  | .mk k st c s p, d => .mk k ⟨st.tag_name, st.attributes, d⟩ c s p

def Conditional.condition : Conditional → Expr
  | .mk c _ => c

def Conditional.node : Conditional → ElementNode
  | .mk _ n => n

def ConditionalNodeSequence.if_node : ConditionalNodeSequence → Conditional
  | .mk i _ _ => i

def ConditionalNodeSequence.else_if_nodes : ConditionalNodeSequence → List Conditional
  | .mk _ e _ => e

def ConditionalNodeSequence.else_node : ConditionalNodeSequence → Option ElementNode
  | .mk _ _ e => e

mutual

/-- Size measure used for termination of the visitor: an element outweighs
the sum of its children by a fixed margin, and a conditional sequence weighs
exactly the sum of its branch elements, so that conditional folding never
increases the weight of a sibling list. -/
def ElementNode.weight : ElementNode → Nat
  | .mk _ _ children _ _ => 8 + Node.listWeight children

def Node.weight : Node → Nat
  | .Element e => e.weight
  | .Text _ => 1
  | .Comment _ => 1
  | .Interpolation _ => 1
  | .ConditionalSeq c => c.weight

def Conditional.weight : Conditional → Nat
  | .mk _ n => n.weight

def ConditionalNodeSequence.weight : ConditionalNodeSequence → Nat
  | .mk ifn elifs els =>
    ifn.weight + Conditional.listWeight elifs +
      (match els with
       | some e => e.weight
       | none => 0)

def Node.listWeight : List Node → Nat
  | [] => 0
  | n :: ns => n.weight + Node.listWeight ns

def Conditional.listWeight : List Conditional → Nat
  | [] => 0
  | c :: cs => c.weight + Conditional.listWeight cs

end

/-- `v.trim().len() == 0`: the text is whitespace-only.  Trimming leading
and trailing whitespace leaves the empty string exactly when every
character is whitespace, which is how the check is rendered here. -/
def trimIsEmpty (s : String) : Bool := s.data.all fun c => c.isWhitespace

/-- The sibling-window pattern `Node::Element(_) | Node::Comment(_, _)`. -/
def isElementOrComment : Node → Bool
  | .Element _ => true
  | .Comment _ => true
  | _ => false

/-- A text node whose content is all whitespace. -/
def isWhitespaceText : Node → Bool
  | .Text s => trimIsEmpty s
  | _ => false

/-- The Rust `1u128 << n`: an overflow-checked shift.  Shifting by 128 bits
or more is an arithmetic overflow in Rust (a panic under the overflow checks
the crate is built with), modelled as `none`. -/
def checkedShl (n : Nat) : Option Nat :=
  if n < 128 then some (1 <<< n) else none

/-- The mask bit for a whitespace-only text node at the head of the sibling
list (`children.first()` match in `optimize_children`). -/
def firstMask (children : List Node) : Nat :=
  match children.head? with
  | some (.Text v) => if trimIsEmpty v then 1 <<< 0 else 0
  | _ => 0

/-- The mask bit for a whitespace-only text node at the end of the sibling
list (`children.last()` match in `optimize_children`); the shift by
`children_len - 1` is overflow-checked. -/
def lastMask (children : List Node) : Option Nat :=
  match children.getLast? with
  | some (.Text v) =>
    if trimIsEmpty v then checkedShl (children.length - 1) else some 0
  | _ => some 0

/-- The mask bits from the sliding `windows(3)` loop of `optimize_children`:
a whitespace-only text node flanked by elements or comments is marked for
discarding at `index + 1`. -/
def windowMask : List Node → Nat → Option Nat
  | a :: b :: c :: rest, index => do
    let m ← windowMask (b :: c :: rest) (index + 1)
    match b with
    | .Text v =>
      if isElementOrComment a && trimIsEmpty v && isElementOrComment c then do
        let s ← checkedShl (index + 1)
        pure (m ||| s)
      else pure m
    | _ => pure m
  | _, _ => pure 0

/-- The `children.retain(..)` call of `optimize_children`: the node at
`index` is kept when the mask bit `1 << index` is clear; every index is
shifted, so the shift check applies to every position of the list. -/
def retainByMask (mask : Nat) : List Node → Nat → Option (List Node)
  | [], _ => some []
  | n :: ns, index => do
    let s ← checkedShl index
    let rest ← retainByMask mask ns (index + 1)
    pure (if mask &&& s == 0 then n :: rest else rest)

/-- The whitespace-elision step of `optimize_children` (its first half):
build the 128-bit discard mask from the head, the tail and the sliding
windows, then retain the unmarked nodes. -/
def elideWhitespace (children : List Node) : Option (List Node) := do
  let m1 := firstMask children
  let m2 ← lastMask children
  let m3 ← windowMask children 0
  retainByMask (m1 ||| m2 ||| m3) children 0

/-- Modelled from the spec: fervid_core's `is_from_default_slot` (not among
the analysed sources).  Per section 4.2 a node belongs to the implicit
default slot unless it carries a named (non-default) slot directive. -/
def is_from_default_slot : Node → Bool
  | .Element e =>
    match e.starting_tag.directives with
    | some d =>
      match d.v_slot with
      | some vs =>
        match vs.slot_name with
        | some (.Str s) => s == "default"
        | some (.Expr _) => false
        | none => true
      | none => true
    | none => true
  | _ => true

/-- The component-slot reordering step of `optimize_children`: for a
component parent, stable-sort the children so that named-slot nodes precede
default-slot nodes. -/
def sortSlots (element_kind : ElementKind) (children : List Node) : List Node :=
  match element_kind with
  | .Component =>
    if children.length > 0 then
      children.mergeSort fun a b => !is_from_default_slot a || is_from_default_slot b
    else children
  | _ => children

/-- The state of the conditional-folding loop of `optimize_children`: the
currently open sequence (if any) and the already-emitted output. -/
structure FoldState where
  seq : Option ConditionalNodeSequence
  out : List Node

/-- The `finish_seq!()` macro: push the open sequence (if any) to the output. -/
def finishSeq (st : FoldState) : FoldState :=
  match st.seq with
  | some s => ⟨none, st.out ++ [Node.ConditionalSeq s]⟩
  | none => st

/-- `finish_seq!(child)`: close the open sequence, then emit the child. -/
def FoldState.push (st : FoldState) (n : Node) : FoldState :=
  let st := finishSeq st
  ⟨st.seq, st.out ++ [n]⟩

/-- One iteration of the `children.drain(..)` loop of `optimize_children`
for an `ElementNode` child: `v_if` is taken and opens a fresh sequence,
`v_else_if` is taken and extends the open sequence (with no open sequence
the child is emitted, its payload already taken), `v_else` (tested, not
taken) attaches the child as the else node and always closes the sequence
(with no open sequence the child is emitted untouched). -/
def foldElementStep (st : FoldState) (el : ElementNode) : FoldState :=
  match el.starting_tag.directives with
  | none => st.push (.Element el)
  | some d =>
    match d.v_if with
    | some cond =>
      let el' := el.setDirectives (some { d with v_if := none })
      let st := finishSeq st
      ⟨some (.mk (.mk cond el') [] none), st.out⟩
    | none =>
      match d.v_else_if with
      | some cond =>
        let el' := el.setDirectives (some { d with v_else_if := none })
        match st.seq with
        | none => st.push (.Element el')
        | some s =>
          ⟨some (.mk s.if_node (s.else_if_nodes ++ [Conditional.mk cond el']) s.else_node), st.out⟩
      | none =>
        match d.v_else with
        | some _ =>
          match st.seq with
          | none => st.push (.Element el)
          | some s =>
            finishSeq ⟨some (.mk s.if_node s.else_if_nodes (some el)), st.out⟩
        | none => st.push (.Element el)

/-- One iteration of the `children.drain(..)` loop of `optimize_children`:
a comment met while a sequence is open is absorbed; any other non-element
child closes the open sequence and is emitted as-is. -/
def foldStep (st : FoldState) (child : Node) : FoldState :=
  match child with
  | .Element el => foldElementStep st el
  | .Comment s =>
    match st.seq with
    | some _ => st
    | none => st.push (.Comment s)
  | other => st.push other

/-- The conditional-folding step of `optimize_children` (its second half,
guarded by `children.len() != 0`): fold the sibling list left to right,
then force-close any still-open sequence. -/
def foldConditionals (children : List Node) : List Node :=
  match children with
  | [] => children
  | _ => (finishSeq (children.foldl foldStep ⟨none, []⟩)).out

/-- `optimize_children`: whitespace elision, component-slot reordering, then
conditional folding. -/
def optimize_children (children : List Node) (element_kind : ElementKind) : Option (List Node) :=
  (elideWhitespace children).map fun cs => foldConditionals (sortSlots element_kind cs)

/-- Modelled from the spec: fervid_core's static `VUE_BUILTINS` table (not
among the analysed sources); section 4.3 describes it as the static built-in
table, and the analysed code looks up `component` and the codegen sample
uses `transition-group` in it. -/
def VUE_BUILTINS : List (String × BuiltinType) :=
  [("component", .Component), ("keep-alive", .KeepAlive), ("slot", .Slot),
   ("suspense", .Suspense), ("teleport", .Teleport), ("transition", .Transition),
   ("transition-group", .TransitionGroup)]

def lookupBuiltin (tag : String) : Option BuiltinType :=
  (VUE_BUILTINS.find? fun p => p.1 == tag).map fun p => p.2

/-- Modelled from the spec: fervid_core's `is_html_tag` (not among the
analysed sources) — membership in the table of known standard markup tags,
here a representative subset sufficient for the analysed templates. -/
def is_html_tag (tag : String) : Bool :=
  ["a", "body", "button", "div", "footer", "form", "h1", "h2", "h3", "h4",
   "h5", "h6", "head", "header", "html", "img", "input", "li", "main", "nav",
   "ol", "p", "section", "span", "table", "td", "template", "th", "tr",
   "ul"].contains tag

/-- `TemplateVisitor::recognize_element_kind`: look the tag up in the
built-in table (with the `component`-without-`is` exception), then fall back
to the HTML-tag table, then to `Component`. -/
def recognize_element_kind (starting_tag : StartingTag) : ElementKind :=
  match lookupBuiltin starting_tag.tag_name with
  | some builtin_type =>
    if starting_tag.tag_name == "component"
        && !(starting_tag.attributes.any fun attr => check_attribute_name attr "is") then
      ElementKind.Component
    else
      ElementKind.Builtin builtin_type
  | none =>
    if is_html_tag starting_tag.tag_name then ElementKind.Element
    else ElementKind.Component

/-- `matches!(element_kind, ElementKind::Component)`. -/
def ElementKind.isComponent : ElementKind → Bool
  | .Component => true
  | _ => false

/-- `matches!(element_kind, ElementKind::Element)`. -/
def ElementKind.isElement : ElementKind → Bool
  | .Element => true
  | _ => false

/-- One iteration of the attribute loop of `visit_element_node`: a `v-bind`
with a dynamic (or absent) argument clears `Props`/`Class`/`Style`, sets
`FullProps` and empties the dynamic-prop list; a static argument contributes
`Class`/`Style`/`Props` (per component-ness and name) only when its value is
dynamic, `FullProps` is not already set, and the name is not `key`. -/
def transformAttr (is_component : Bool) (hints : PatchHints)
    (attr : AttributeOrBinding) : PatchHints × AttributeOrBinding :=
  match attr with
  | .VBind v_bind =>
    let (value', has_bindings) := transform_expr v_bind.value 0
    let attr' := AttributeOrBinding.VBind { v_bind with value := value' }
    match v_bind.argument with
    | some (.Str argument) =>
      if !has_bindings || hints.flags.fullProps then (hints, attr')
      else if argument == "key" then (hints, attr')
      else if is_component then
        (⟨{ hints.flags with props := true }, hints.props ++ [argument]⟩, attr')
      else if argument == "class" then
        (⟨{ hints.flags with cls := true }, hints.props⟩, attr')
      else if argument == "style" then
        (⟨{ hints.flags with style := true }, hints.props⟩, attr')
      else
        (⟨{ hints.flags with props := true }, hints.props ++ [argument]⟩, attr')
    | _ =>
      (⟨{ hints.flags with
            props := false, cls := false, style := false,
            fullProps := true }, []⟩, attr')
  | .VOn v_on =>
    match v_on.handler with
    | some handler =>
      let (handler', _) := transform_expr handler 0
      (hints, .VOn { v_on with handler := some handler' })
    | none => (hints, attr)
  | _ => (hints, attr)

/-- The attribute loop of `visit_element_node` over the whole list. -/
def transformAttrs (is_component : Bool) (hints : PatchHints) :
    List AttributeOrBinding → PatchHints × List AttributeOrBinding
  | [] => (hints, [])
  | a :: rest =>
    let (h1, a') := transformAttr is_component hints a
    let (h2, rest') := transformAttrs is_component h1 rest
    (h2, a' :: rest')

/-- The `v-for` handling of `visit_element_node`: collect the iteration
variables into the element's scope, transform the iterable, and attach
exactly one fragment patch flag to the directive — `StableFragment` for a
non-dynamic iterable, otherwise `KeyedFragment`/`UnkeyedFragment` according
to the presence of a `key` attribute. -/
def processVFor (h : BindingsHelper) (scope_to_use : Nat)
    (attributes : List AttributeOrBinding) (v_for : VForDirective) :
    BindingsHelper × VForDirective :=
  let h := collectVariablesAt h scope_to_use v_for.itervar
  let (iterable', is_dynamic) := transform_expr v_for.iterable scope_to_use
  let v_for :=
    if !is_dynamic then
      { v_for with
          iterable := iterable',
          patch_flags := { v_for.patch_flags with stableFragment := true } }
    else
      let has_key := attributes.any fun attr => check_attribute_name attr "key"
      if has_key then
        { v_for with
            iterable := iterable',
            patch_flags := { v_for.patch_flags with keyedFragment := true } }
      else
        { v_for with
            iterable := iterable',
            patch_flags := { v_for.patch_flags with unkeyedFragment := true } }
  (h, v_for)

/-- The scoping-directive prologue of `visit_element_node`: when a `v-for`
or `v-slot` is present a fresh scope (child of the parent scope) is opened
and their bound variables are collected into it; the `v-for` fragment flags
are attached; the remaining expression-valued directives are transformed in
place.  Returns the updated helper, the scope for this element and the
updated directive block. -/
def processScopeDirectives (h : BindingsHelper) (parent_scope : Nat)
    (starting_tag : StartingTag) :
    BindingsHelper × Nat × Option VueDirectives :=
  match starting_tag.directives with
  | none => (h, parent_scope, none)
  | some d =>
    let needsScope := d.v_for.isSome || d.v_slot.isSome
    let scope_to_use := if needsScope then h.template_scopes.length else parent_scope
    let h := if needsScope then
        ⟨h.template_scopes ++ [⟨[], parent_scope⟩]⟩
      else h
    let (h, v_for') :=
      match d.v_for with
      | some v_for =>
        let (h, vf) := processVFor h scope_to_use starting_tag.attributes v_for
        (h, some vf)
      | none => (h, none)
    let h :=
      match d.v_slot with
      | some vs =>
        match vs.value with
        | some pat => collectVariablesAt h scope_to_use pat
        | none => h
      | none => h
    -- `maybe_transform!` on v_html/v_memo/v_show/v_text (identity rewrites
    -- under the expression model)
    let tr : Option Expr → Option Expr := fun o => o.map fun e => (transform_expr e scope_to_use).1
    (h, scope_to_use,
     some { d with
            v_for := v_for', v_html := tr d.v_html, v_memo := tr d.v_memo,
            v_show := tr d.v_show, v_text := tr d.v_text })

/-- `matches!(child, Node::Element(_) | Node::ConditionalSeq(_))` — the
children that disqualify the `Text` patch flag. -/
def isElementOrConditionalSeq : Node → Bool
  | .Element _ => true
  | .ConditionalSeq _ => true
  | _ => false

/-- The dynamicity patch flag of an interpolation child (`false` for any
other node). -/
def interpolationPatchFlag : Node → Bool
  | .Interpolation i => i.patch_flag
  | _ => false

/-- The text-only patch-flag epilogue of `visit_element_node`: starting from
"plain element with a non-empty (optimized) child list", the loop clears the
candidacy on any `Element`/`ConditionalSeq` child and records whether some
interpolation child carries a dynamic patch flag; the `Text` flag is set
when both conditions survive. -/
def applyTextFlag (element_kind : ElementKind) (optimized : List Node)
    (visited : List Node) (flags : PatchFlags) : PatchFlags :=
  let is_children_text_only :=
    visited.foldl (fun acc c => acc && !(isElementOrConditionalSeq c))
      (element_kind.isElement && !optimized.isEmpty)
  let has_dynamic_interpolation :=
    visited.foldl (fun acc c => acc || interpolationPatchFlag c) false
  if is_children_text_only && has_dynamic_interpolation then
    { flags with text := true }
  else flags

theorem Node.listWeight_append (xs ys : List Node) :
    Node.listWeight (xs ++ ys) = Node.listWeight xs + Node.listWeight ys := by
  induction xs with
  | nil => simp [Node.listWeight]
  | cons x xs ih => simp [Node.listWeight, ih]; omega

theorem Conditional.listWeight_app (xs ys : List Conditional) :
    Conditional.listWeight (xs ++ ys) =
      Conditional.listWeight xs + Conditional.listWeight ys := by
  induction xs with
  | nil => simp [Conditional.listWeight]
  | cons x xs ih => simp [Conditional.listWeight, ih]; omega

theorem Node.listWeight_eq_sum (cs : List Node) :
    Node.listWeight cs = (cs.map Node.weight).sum := by
  induction cs with
  | nil => rfl
  | cons c cs ih => simp [Node.listWeight, ih]

theorem Node.weight_le_listWeight {n : Node} {cs : List Node} (h : n ∈ cs) :
    n.weight ≤ Node.listWeight cs := by
  induction cs with
  | nil => cases h
  | cons c cs ih =>
    rcases List.mem_cons.mp h with h | h
    · subst h; simp [Node.listWeight]
    · have := ih h; simp [Node.listWeight]; omega

theorem ElementNode.setDirectives_weight (e : ElementNode) (d : Option VueDirectives) :
    (e.setDirectives d).weight = e.weight := by
  cases e; rfl

theorem retainByMask_weight {mask : Nat} :
    ∀ {cs : List Node} {i : Nat} {cs' : List Node},
      retainByMask mask cs i = some cs' → Node.listWeight cs' ≤ Node.listWeight cs := by
  intro cs
  induction cs with
  | nil => intro i cs' h; simp [retainByMask] at h; simp [h.symm]
  | cons c cs ih =>
    intro i cs' h
    simp only [retainByMask, Option.bind_eq_bind, Option.bind_eq_some, Option.pure_def,
      Option.some.injEq] at h
    obtain ⟨s, hs, rest, hr, hout⟩ := h
    have hrest := ih hr
    by_cases hbit : mask &&& s == 0
    · rw [if_pos hbit] at hout; subst hout; simp [Node.listWeight]; omega
    · rw [if_neg hbit] at hout; subst hout; simp [Node.listWeight]; omega

theorem elideWhitespace_weight {cs cs' : List Node}
    (h : elideWhitespace cs = some cs') : Node.listWeight cs' ≤ Node.listWeight cs := by
  unfold elideWhitespace at h
  simp only [Option.bind_eq_bind, Option.bind_eq_some] at h
  obtain ⟨m2, _, m3, _, hr⟩ := h
  exact retainByMask_weight hr

theorem sortSlots_weight (k : ElementKind) (cs : List Node) :
    Node.listWeight (sortSlots k cs) = Node.listWeight cs := by
  unfold sortSlots
  cases k <;> try rfl
  by_cases hl : cs.length > 0
  · rw [if_pos hl]
    rw [Node.listWeight_eq_sum, Node.listWeight_eq_sum]
    exact List.Perm.sum_eq ((List.mergeSort_perm cs _).map Node.weight)
  · rw [if_neg hl]

/-- The weight of the (possibly open) sequence of a fold state. -/
def optSeqWeight : Option ConditionalNodeSequence → Nat
  | some s => s.weight
  | none => 0

/-- The weight of a fold state: emitted output plus open sequence. -/
def FoldState.weight (st : FoldState) : Nat :=
  Node.listWeight st.out + optSeqWeight st.seq

theorem finishSeq_weight (st : FoldState) : (finishSeq st).weight = st.weight := by
  rcases st with ⟨seq, out⟩
  cases seq with
  | none => rfl
  | some s =>
    simp [finishSeq, FoldState.weight, optSeqWeight, Node.listWeight_append,
      Node.listWeight, Node.weight]

theorem FoldState.push_weight (st : FoldState) (n : Node) :
    (st.push n).weight = st.weight + n.weight := by
  rcases st with ⟨seq, out⟩
  cases seq with
  | none =>
    simp [FoldState.push, finishSeq, FoldState.weight, optSeqWeight,
      Node.listWeight_append, Node.listWeight]
  | some s =>
    simp [FoldState.push, finishSeq, FoldState.weight, optSeqWeight,
      Node.listWeight_append, Node.listWeight, Node.weight]
    omega

theorem foldElementStep_weight (st : FoldState) (el : ElementNode) :
    (foldElementStep st el).weight ≤ st.weight + el.weight := by
  rcases el with ⟨k, ⟨tag, attrs, dirs⟩, ch, sc, ph⟩
  rcases st with ⟨seq, out⟩
  rcases dirs with _ | ⟨vif, vei, vel, vfor, vslot, vhtml, vmemo, vshow, vtext⟩
  · simp [foldElementStep, ElementNode.starting_tag, FoldState.push_weight, Node.weight]
  · rcases vif with _ | cond
    · rcases vei with _ | cond
      · rcases vel with _ | u
        · simp [foldElementStep, ElementNode.starting_tag, FoldState.push_weight, Node.weight]
        · rcases seq with _ | ⟨⟨ce, ne⟩, elifs, els⟩
          · simp [foldElementStep, ElementNode.starting_tag, FoldState.push_weight, Node.weight]
          · rcases els with _ | e0 <;>
              simp [foldElementStep, ElementNode.starting_tag, finishSeq, FoldState.weight,
                optSeqWeight, ConditionalNodeSequence.weight,
                ConditionalNodeSequence.if_node, ConditionalNodeSequence.else_if_nodes,
                ConditionalNodeSequence.else_node, Conditional.weight,
                Node.listWeight_append, Node.listWeight, Node.weight,
                ElementNode.weight] <;>
              omega
      · rcases seq with _ | ⟨⟨ce, ne⟩, elifs, els⟩
        · simp [foldElementStep, ElementNode.starting_tag, ElementNode.setDirectives,
            FoldState.push_weight, Node.weight, ElementNode.weight]
        · rcases els with _ | e0 <;>
            simp [foldElementStep, ElementNode.starting_tag, ElementNode.setDirectives,
              FoldState.weight, optSeqWeight, ConditionalNodeSequence.weight,
              ConditionalNodeSequence.if_node, ConditionalNodeSequence.else_if_nodes,
              ConditionalNodeSequence.else_node, Conditional.listWeight_app,
              Conditional.listWeight, Conditional.weight, Node.weight,
              ElementNode.weight] <;>
            omega
    · rcases seq with _ | s <;>
        simp [foldElementStep, ElementNode.starting_tag, ElementNode.setDirectives,
          finishSeq, FoldState.weight, optSeqWeight, ConditionalNodeSequence.weight,
          Conditional.weight, Conditional.listWeight, Node.listWeight_append,
          Node.listWeight, Node.weight, ElementNode.weight]

theorem foldStep_weight (st : FoldState) (n : Node) :
    (foldStep st n).weight ≤ st.weight + n.weight := by
  rcases n with e | s | s | i | c
  · exact foldElementStep_weight st e
  · simp [foldStep, FoldState.push_weight]
  · rcases st with ⟨seq, out⟩
    rcases seq with _ | s0
    · have h1 := FoldState.push_weight ⟨none, out⟩ (Node.Comment s)
      simp only [foldStep]
      rw [h1]
    · simp only [foldStep]
      omega
  · simp [foldStep, FoldState.push_weight]
  · simp [foldStep, FoldState.push_weight]

theorem foldl_foldStep_weight (cs : List Node) :
    ∀ st : FoldState, (cs.foldl foldStep st).weight ≤ st.weight + Node.listWeight cs := by
  induction cs with
  | nil => intro st; simp [Node.listWeight]
  | cons c cs ih =>
    intro st
    have h1 := foldStep_weight st c
    have h2 := ih (foldStep st c)
    simp only [List.foldl_cons, Node.listWeight]
    omega

theorem foldConditionals_weight (cs : List Node) :
    Node.listWeight (foldConditionals cs) ≤ Node.listWeight cs := by
  cases cs with
  | nil => simp [foldConditionals]
  | cons c cs =>
    have h1 := foldl_foldStep_weight (c :: cs) ⟨none, []⟩
    have h2 := finishSeq_weight ((c :: cs).foldl foldStep ⟨none, []⟩)
    have h3 : Node.listWeight (finishSeq ((c :: cs).foldl foldStep ⟨none, []⟩)).out ≤
        (finishSeq ((c :: cs).foldl foldStep ⟨none, []⟩)).weight := by
      unfold FoldState.weight; omega
    have h4 : (⟨none, []⟩ : FoldState).weight = 0 := rfl
    have h5 : foldConditionals (c :: cs) =
        (finishSeq ((c :: cs).foldl foldStep ⟨none, []⟩)).out := by
      simp [foldConditionals]
    rw [h5]
    omega

theorem optimize_children_weight {cs : List Node} {k : ElementKind} {cs' : List Node}
    (h : optimize_children cs k = some cs') :
    Node.listWeight cs' ≤ Node.listWeight cs := by
  unfold optimize_children at h
  obtain ⟨mid, he, hf⟩ := Option.map_eq_some'.mp h
  subst hf
  calc Node.listWeight (foldConditionals (sortSlots k mid))
      ≤ Node.listWeight (sortSlots k mid) := foldConditionals_weight _
    _ = Node.listWeight mid := sortSlots_weight k mid
    _ ≤ Node.listWeight cs := elideWhitespace_weight he

theorem ElementNode.weight_eq (e : ElementNode) :
    e.weight = 8 + Node.listWeight e.children := by
  cases e; rfl

theorem ElementNode.weight_pos (e : ElementNode) : 8 ≤ e.weight := by
  rw [e.weight_eq]; omega

theorem Node.weight_pos_node (n : Node) : 1 ≤ n.weight := by
  rcases n with e | s | s | i | c
  · have := e.weight_pos; simp [Node.weight]; omega
  · simp [Node.weight]
  · simp [Node.weight]
  · simp [Node.weight]
  · rcases c with ⟨⟨ce, ne⟩, elifs, els⟩
    have := ne.weight_pos
    rcases els with _ | e0 <;>
      simp [Node.weight, ConditionalNodeSequence.weight, Conditional.weight] <;>
      omega

theorem Conditional.weight_pos_cond (c : Conditional) : 8 ≤ c.weight := by
  rcases c with ⟨ce, ne⟩
  simpa [Conditional.weight] using ne.weight_pos

theorem weight_if_node_le (c : ConditionalNodeSequence) :
    c.if_node.node.weight ≤ c.weight := by
  rcases c with ⟨⟨ce, ne⟩, elifs, els⟩
  rcases els with _ | e0 <;>
    simp [ConditionalNodeSequence.weight, ConditionalNodeSequence.if_node,
      Conditional.node, Conditional.weight] <;>
    omega

theorem weight_else_ifs_add_le (c : ConditionalNodeSequence) :
    8 + Conditional.listWeight c.else_if_nodes ≤ c.weight := by
  rcases c with ⟨⟨ce, ne⟩, elifs, els⟩
  have := ne.weight_pos
  rcases els with _ | e0 <;>
    simp [ConditionalNodeSequence.weight, ConditionalNodeSequence.else_if_nodes,
      Conditional.weight] <;>
    omega

theorem weight_else_le {c : ConditionalNodeSequence} {el : ElementNode}
    (h : c.else_node = some el) : el.weight + 8 ≤ c.weight := by
  rcases c with ⟨⟨ce, ne⟩, elifs, els⟩
  simp [ConditionalNodeSequence.else_node] at h
  subst h
  have := ne.weight_pos
  simp [ConditionalNodeSequence.weight, Conditional.weight]
  omega

mutual

/-- `TemplateVisitor::visit_element_node`: classify the element, open and
populate the scope demanded by `v-for`/`v-slot`, derive the attribute patch
flags, transform the remaining directives, optimize the children, visit them
recursively and finally derive the `Text` patch flag. -/
def visitElementNode (h : BindingsHelper) (current_scope : Nat) (e : ElementNode) :
    Option (ElementNode × BindingsHelper) :=
  let element_kind := recognize_element_kind e.starting_tag
  let pd := processScopeDirectives h current_scope e.starting_tag
  let ta := transformAttrs element_kind.isComponent e.patch_hints e.starting_tag.attributes
  match hopt : optimize_children e.children element_kind with
  | none => none
  | some optimized =>
    match visitNodes pd.1 pd.2.1 optimized with
    | none => none
    | some (children1, h2) =>
      let flags1 := applyTextFlag element_kind optimized children1 ta.1.flags
      some (.mk element_kind ⟨e.starting_tag.tag_name, ta.2, pd.2.2⟩
              children1 pd.2.1 ⟨flags1, ta.1.props⟩, h2)
termination_by 8 * e.weight
decreasing_by
  have hw := optimize_children_weight hopt
  have he := e.weight_eq
  omega

/-- `TemplateVisitor::visit_conditional_node`: transform the `if` condition
against the current scope, visit the `if` branch, then the `else-if`
branches, then the optional `else` branch. -/
def visitConditionalNode (h : BindingsHelper) (scope : Nat) (c : ConditionalNodeSequence) :
    Option (ConditionalNodeSequence × BindingsHelper) :=
  let cond1 := (transform_expr c.if_node.condition scope).1
  match visitElementNode h scope c.if_node.node with
  | none => none
  | some (ifEl1, h1) =>
    match visitConditionals h1 scope c.else_if_nodes with
    | none => none
    | some (elifs1, h2) =>
      match hels : c.else_node with
      | none => some (.mk (.mk cond1 ifEl1) elifs1 none, h2)
      | some el =>
        match visitElementNode h2 scope el with
        | none => none
        | some (el1, h3) => some (.mk (.mk cond1 ifEl1) elifs1 (some el1), h3)
termination_by 8 * c.weight + 4
decreasing_by
  · have := weight_if_node_le c
    omega
  · have := weight_else_ifs_add_le c
    omega
  · have := weight_else_le hels
    omega

/-- The `else_if_nodes` loop of `visit_conditional_node`. -/
def visitConditionals (h : BindingsHelper) (scope : Nat) :
    List Conditional → Option (List Conditional × BindingsHelper)
  | [] => some ([], h)
  | c :: rest =>
    let cond1 := (transform_expr c.condition scope).1
    match visitElementNode h scope c.node with
    | none => none
    | some (el1, h1) =>
      match visitConditionals h1 scope rest with
      | none => none
      | some (rest1, h2) => some (.mk cond1 el1 :: rest1, h2)
termination_by l => 8 * Conditional.listWeight l + 2
decreasing_by
  · rcases c with ⟨ce, ne⟩
    simp [Conditional.listWeight, Conditional.weight, Conditional.node]
    omega
  · have := c.weight_pos_cond
    simp [Conditional.listWeight]
    omega

/-- `Node::visit_mut_with`: dispatch on the node kind; text and comments are
left untouched, interpolations get their scope, transformed value and
dynamicity patch flag. -/
def visitNode (h : BindingsHelper) (scope : Nat) : Node → Option (Node × BindingsHelper)
  | .Element e =>
    match visitElementNode h scope e with
    | none => none
    | some (e1, h1) => some (.Element e1, h1)
  | .ConditionalSeq c =>
    match visitConditionalNode h scope c with
    | none => none
    | some (c1, h1) => some (.ConditionalSeq c1, h1)
  | .Interpolation i =>
    let tr := transform_expr i.value scope
    some (.Interpolation ⟨tr.1, scope, tr.2⟩, h)
  | other => some (other, h)
termination_by n => 8 * n.weight + 6
decreasing_by
  · simp [Node.weight]
  · simp [Node.weight]

/-- The per-root / per-child visiting loop (`iter_mut` over siblings). -/
def visitNodes (h : BindingsHelper) (scope : Nat) :
    List Node → Option (List Node × BindingsHelper)
  | [] => some ([], h)
  | n :: rest =>
    match visitNode h scope n with
    | none => none
    | some (n1, h1) =>
      match visitNodes h1 scope rest with
      | none => none
      | some (rest1, h2) => some (n1 :: rest1, h2)
termination_by l => 8 * Node.listWeight l + 7
decreasing_by
  · simp [Node.listWeight]; omega
  · have := n.weight_pos_node
    simp [Node.listWeight]
    omega

end

/-- `matches!(root, Node::Element(_))`. -/
def Node.isElementNode : Node → Bool
  | .Element _ => true
  | _ => false

/-- fervid_core `SfcTemplateBlock` (source span omitted). -/
structure SfcTemplateBlock where
  lang : String
  roots : List Node

/-- `transform_and_record_template`: retain only element roots, optimize the
root list, wrap more than one remaining root into a synthetic `<template>`
element in scope 0, then visit every root. -/
def transform_and_record_template (template : SfcTemplateBlock)
    (bindings_helper : BindingsHelper) : Option (SfcTemplateBlock × BindingsHelper) :=
  let roots1 := template.roots.filter Node.isElementNode
  match optimize_children roots1 ElementKind.Element with
  | none => none
  | some roots2 =>
    let roots3 :=
      if roots2.length > 1 then
        [Node.Element (.mk .Element ⟨"template", [], none⟩ roots2 0 PatchHints.empty)]
      else roots2
    match visitNodes bindings_helper 0 roots3 with
    | none => none
    | some (roots4, h1) => some (⟨template.lang, roots4⟩, h1)

/-- C5: Element classification.  A starting tag found in the static built-in
table classifies as the corresponding `Builtin`, except the tag `component`,
which is `Builtin` only when an `is` attribute is present and `Component`
otherwise; a tag outside the table classifies as `Element` exactly when it
is a known standard HTML tag, and as `Component` otherwise. -/
theorem element_classification (st : StartingTag) :
    (∀ b, lookupBuiltin st.tag_name = some b →
      (st.tag_name = "component" →
        ((st.attributes.any fun attr => check_attribute_name attr "is") = true →
            recognize_element_kind st = ElementKind.Builtin b) ∧
        ((st.attributes.any fun attr => check_attribute_name attr "is") = false →
            recognize_element_kind st = ElementKind.Component)) ∧
      (st.tag_name ≠ "component" → recognize_element_kind st = ElementKind.Builtin b)) ∧
    (lookupBuiltin st.tag_name = none →
      (is_html_tag st.tag_name = true → recognize_element_kind st = ElementKind.Element) ∧
      (is_html_tag st.tag_name = false → recognize_element_kind st = ElementKind.Component)) := by
  unfold recognize_element_kind
  constructor
  · intro b hb
    rw [hb]
    constructor
    · intro hc
      constructor
      · intro his
        rw [his]
        simp [hc]
      · intro his
        rw [his]
        simp [hc]
    · intro hc
      have : (st.tag_name == "component") = false := by
        simpa using hc
      rw [this]
      simp
  · intro hb
    rw [hb]
    constructor
    · intro hh; rw [hh]; simp
    · intro hh; rw [hh]; simp

/-- Witness for C5 at concrete inputs: the dynamic-component tag without an
`is` attribute classifies as `Component` even though `component` is in the
built-in table, and `div` (not in the table, a known HTML tag) classifies as
`Element`. -/
theorem element_classification_witness :
    recognize_element_kind ⟨"component", [], none⟩ = ElementKind.Component ∧
    recognize_element_kind ⟨"div", [], none⟩ = ElementKind.Element := by
  constructor
  · exact (((element_classification ⟨"component", [], none⟩).1
      BuiltinType.Component (by decide)).1 rfl).2 (by decide)
  · exact ((element_classification ⟨"div", [], none⟩).2 (by decide)).1 (by decide)

/-- Closing an open sequence per the claim: an open sequence is pushed to
the output as a `ConditionalSeq` node; no open sequence contributes nothing. -/
def closeSeq : Option ConditionalNodeSequence → List Node
  | some s => [Node.ConditionalSeq s]
  | none => []

/-- Transcription of claim C2's description of the conditional-folding scan
(spec section 4.2, step 3), written sentence by sentence from the claim: a
single left-to-right scan with at most one open sequence; an element with
`v-if` closes any open sequence and opens a new one with itself as the
`if_node`, the payload moved out of its directive slot; an element with
`v-else-if` extends the currently open sequence as a new else-if
conditional, the payload moved out; an element with `v-else` attaches to
the open sequence as the else node (its `v-else` slot holds no expression
payload, so nothing moves into the sequence from it) and always terminates
the sequence; a comment met while a sequence is open is absorbed; any other
node closes the open sequence and is emitted as-is; the end of the list
force-closes a still-open sequence.  The claim leaves the orphan
`v-else-if`/`v-else` cases (no open sequence) unspecified — they are the
subject of claim C8 and follow the code here. -/
def foldSpecGo (openSeq : Option ConditionalNodeSequence) : List Node → List Node
  | [] => closeSeq openSeq
  | child :: rest =>
    match child with
    | .Element el =>
      match el.starting_tag.directives with
      | none => closeSeq openSeq ++ [child] ++ foldSpecGo none rest
      | some d =>
        match d.v_if with
        | some cond =>
          closeSeq openSeq ++
            foldSpecGo (some (.mk (.mk cond (el.setDirectives (some { d with v_if := none })))
              [] none)) rest
        | none =>
          match d.v_else_if with
          | some cond =>
            match openSeq with
            | some s =>
              foldSpecGo (some (.mk s.if_node
                (s.else_if_nodes ++
                  [Conditional.mk cond (el.setDirectives (some { d with v_else_if := none }))])
                s.else_node)) rest
            | none =>
              [Node.Element (el.setDirectives (some { d with v_else_if := none }))] ++
                foldSpecGo none rest
          | none =>
            match d.v_else with
            | some _ =>
              match openSeq with
              | some s =>
                closeSeq (some (.mk s.if_node s.else_if_nodes (some el))) ++
                  foldSpecGo none rest
              | none => [child] ++ foldSpecGo none rest
            | none => closeSeq openSeq ++ [child] ++ foldSpecGo none rest
    | .Comment _ =>
      match openSeq with
      | some s => foldSpecGo (some s) rest
      | none => [child] ++ foldSpecGo none rest
    | other => closeSeq openSeq ++ [other] ++ foldSpecGo none rest

/-- The claim-side fold: the scan starts with no open sequence. -/
def foldConditionalsClaim (children : List Node) : List Node :=
  foldSpecGo none children

theorem finishSeq_none (out : List Node) : finishSeq ⟨none, out⟩ = ⟨none, out⟩ := rfl

theorem finishSeq_some (s : ConditionalNodeSequence) (out : List Node) :
    finishSeq ⟨some s, out⟩ = ⟨none, out ++ [Node.ConditionalSeq s]⟩ := rfl

theorem push_none (out : List Node) (n : Node) :
    FoldState.push ⟨none, out⟩ n = ⟨none, out ++ [n]⟩ := rfl

theorem push_some (s : ConditionalNodeSequence) (out : List Node) (n : Node) :
    FoldState.push ⟨some s, out⟩ n = ⟨none, (out ++ [Node.ConditionalSeq s]) ++ [n]⟩ := rfl

theorem foldl_foldStep_spec (cs : List Node) :
    ∀ (seq : Option ConditionalNodeSequence) (out : List Node),
      (finishSeq (cs.foldl foldStep ⟨seq, out⟩)).out = out ++ foldSpecGo seq cs := by
  induction cs with
  | nil =>
    intro seq out
    rcases seq with _ | s <;>
      simp [finishSeq_none, finishSeq_some, foldSpecGo, closeSeq]
  | cons child rest ih =>
    intro seq out
    rw [List.foldl_cons]
    rcases child with el | s | s | i | c
    · rcases el with ⟨k, ⟨tag, attrs, dirs⟩, ch, sc, ph⟩
      rcases dirs with _ | ⟨vif, vei, vel, vfor, vslot, vhtml, vmemo, vshow, vtext⟩
      · rcases seq with _ | s <;>
          simp [foldStep, foldElementStep, ElementNode.starting_tag, push_none, push_some,
            finishSeq_none, finishSeq_some, ih, foldSpecGo, closeSeq]
      · rcases vif with _ | cond
        · rcases vei with _ | cond
          · rcases vel with _ | u
            · rcases seq with _ | s <;>
                simp [foldStep, foldElementStep, ElementNode.starting_tag, push_none,
                  push_some, finishSeq_none, finishSeq_some, ih, foldSpecGo, closeSeq]
            · rcases seq with _ | s <;>
                simp [foldStep, foldElementStep, ElementNode.starting_tag, push_none,
                  push_some, finishSeq_none, finishSeq_some, ih, foldSpecGo, closeSeq,
                  ConditionalNodeSequence.if_node, ConditionalNodeSequence.else_if_nodes,
                  ConditionalNodeSequence.else_node]
          · rcases seq with _ | s <;>
              simp [foldStep, foldElementStep, ElementNode.starting_tag,
                ElementNode.setDirectives, push_none, push_some, finishSeq_none,
                finishSeq_some, ih, foldSpecGo, closeSeq,
                ConditionalNodeSequence.if_node, ConditionalNodeSequence.else_if_nodes,
                ConditionalNodeSequence.else_node]
        · rcases seq with _ | s <;>
            simp [foldStep, foldElementStep, ElementNode.starting_tag,
              ElementNode.setDirectives, push_none, push_some, finishSeq_none,
              finishSeq_some, ih, foldSpecGo, closeSeq]
    · rcases seq with _ | s0 <;>
        simp [foldStep, push_none, push_some, finishSeq_none, finishSeq_some, ih,
          foldSpecGo, closeSeq]
    · rcases seq with _ | s0 <;>
        simp [foldStep, push_none, push_some, finishSeq_none, finishSeq_some, ih,
          foldSpecGo, closeSeq]
    · rcases seq with _ | s0 <;>
        simp [foldStep, push_none, push_some, finishSeq_none, finishSeq_some, ih,
          foldSpecGo, closeSeq]
    · rcases seq with _ | s0 <;>
        simp [foldStep, push_none, push_some, finishSeq_none, finishSeq_some, ih,
          foldSpecGo, closeSeq]

/-- `matches!(node, Node::ConditionalSeq(_))`. -/
def Node.isCondSeq : Node → Bool
  | .ConditionalSeq _ => true
  | _ => false

/-- The directive-slot consumption the fold performs on a node it emits or
absorbs: the `v_if` and `v_else_if` payloads are taken (the slots emptied),
everything else untouched. -/
def stripCondTaken : Node → Node
  | .Element e =>
    match e.starting_tag.directives with
    | some d => .Element (e.setDirectives (some { d with v_if := none, v_else_if := none }))
    | none => .Element e
  | n => n

theorem foldSpecGo_order (cs : List Node) :
    ∀ seq, List.Sublist ((foldSpecGo seq cs).filter fun n => !n.isCondSeq)
      (cs.map stripCondTaken) := by
  induction cs with
  | nil =>
    intro seq
    rcases seq with _ | s <;> simp [foldSpecGo, closeSeq, Node.isCondSeq]
  | cons child rest ih =>
    intro seq
    rcases child with el | s | s | i | c
    · rcases el with ⟨k, ⟨tag, attrs, dirs⟩, ch, sc, ph⟩
      rcases dirs with _ | ⟨vif, vei, vel, vfor, vslot, vhtml, vmemo, vshow, vtext⟩
      · rcases seq with _ | s <;>
          · simp [foldSpecGo, closeSeq, Node.isCondSeq, stripCondTaken,
              ElementNode.starting_tag, ElementNode.setDirectives]
            first
            | exact List.Sublist.cons₂ _ (ih _)
            | exact List.Sublist.cons _ (ih _)
            | exact ih _
      · rcases vif with _ | cond <;> rcases vei with _ | cond2 <;>
          rcases vel with _ | u <;> rcases seq with _ | s <;>
          · simp [foldSpecGo, closeSeq, Node.isCondSeq, stripCondTaken,
              ElementNode.starting_tag, ElementNode.setDirectives]
            first
            | exact List.Sublist.cons₂ _ (ih _)
            | exact List.Sublist.cons _ (ih _)
            | exact ih _
    all_goals
      rcases seq with _ | s0 <;>
        · simp [foldSpecGo, closeSeq, Node.isCondSeq, stripCondTaken]
          first
          | exact List.Sublist.cons₂ _ (ih _)
          | exact List.Sublist.cons _ (ih _)
          | exact ih _

/-- C2: Conditional folding.  The single left-to-right scan of
`optimize_children` coincides with the claim's description (`v-if` closes
any open sequence and opens a new one with the payload moved out of the
directive slot; `v-else-if` extends the open sequence, payload moved out;
`v-else` attaches as the else node and always terminates the sequence;
comments met while a sequence is open are absorbed; any other node closes
the open sequence and is emitted as-is; the end of the sibling list
force-closes a still-open sequence), and the non-conditional content of the
output is, in its original relative order, the sublist of the input that
survives folding (up to the taken directive slots). -/
theorem conditional_folding (children : List Node) :
    foldConditionals children = foldConditionalsClaim children ∧
    List.Sublist ((foldConditionals children).filter fun n => !n.isCondSeq)
      (children.map stripCondTaken) := by
  have heq : foldConditionals children = foldConditionalsClaim children := by
    cases children with
    | nil => rfl
    | cons c cs =>
      have h5 : foldConditionals (c :: cs) =
          (finishSeq ((c :: cs).foldl foldStep ⟨none, []⟩)).out := by
        simp [foldConditionals]
      rw [h5, foldl_foldStep_spec (c :: cs) none []]
      rfl
  refine ⟨heq, ?_⟩
  rw [heq]
  exact foldSpecGo_order children none

/-- The `v_else_if` slot of an element node, `none` for any other node. -/
def nodeElseIfSlot : Node → Option Expr
  | .Element e =>
    match e.starting_tag.directives with
    | some d => d.v_else_if
    | none => none
  | _ => none

/-- The `v_else` slot of an element node, `none` for any other node. -/
def nodeElseSlot : Node → Option Unit
  | .Element e =>
    match e.starting_tag.directives with
    | some d => d.v_else
    | none => none
  | _ => none

/-- An `<h2 v-else-if="foo">` sibling with no preceding `v-if`. -/
def orphanElseIfEl : ElementNode :=
  .mk .Element ⟨"h2", [], some { VueDirectives.empty with v_else_if := some ⟨"foo", true⟩ }⟩
    [] 0 PatchHints.empty

/-- Counterexample to C8 as stated: an orphan `v-else-if` node is NOT
emitted untouched — the fold takes (consumes) its `v-else-if` payload
before discovering that no sequence is open, so the emitted node has an
emptied `v_else_if` slot. -/
theorem orphan_else_if_not_untouched :
    foldConditionals [Node.Element orphanElseIfEl] ≠ [Node.Element orphanElseIfEl] := by
  intro hcontra
  have h2 := congrArg (fun l => l.map nodeElseIfSlot) hcontra
  simp only [foldConditionals, List.foldl_cons, List.foldl_nil, foldStep, foldElementStep,
    orphanElseIfEl, ElementNode.starting_tag, ElementNode.setDirectives, VueDirectives.empty,
    finishSeq_none, push_none, List.map_cons, List.map_nil, nodeElseIfSlot] at h2
  simp [nodeElseIfSlot, ElementNode.starting_tag] at h2

/-- C8 amended: a node carrying `v-else-if` or `v-else` with no open
conditional sequence is emitted as a plain node in its original position
(the open-sequence slot stays empty and the sibling count is unchanged),
and this is not an error; an orphan `v-else` node is emitted untouched,
while an orphan `v-else-if` node is emitted with its `v-else-if` payload
consumed (the slot emptied) but is otherwise unchanged. -/
theorem orphan_directive_handling (st : FoldState) (e : ElementNode) (d : VueDirectives)
    (hseq : st.seq = none) (hd : e.starting_tag.directives = some d) (hif : d.v_if = none) :
    (∀ cond, d.v_else_if = some cond →
      foldStep st (Node.Element e) =
        ⟨none, st.out ++ [Node.Element (e.setDirectives (some { d with v_else_if := none }))]⟩) ∧
    (d.v_else_if = none → d.v_else.isSome →
      foldStep st (Node.Element e) = ⟨none, st.out ++ [Node.Element e]⟩) := by
  rcases st with ⟨seq, out⟩
  simp only at hseq
  subst hseq
  rcases e with ⟨k, ⟨tag, attrs, dirs⟩, ch, sc, ph⟩
  simp only [ElementNode.starting_tag] at hd
  subst hd
  constructor
  · intro cond hei
    simp [foldStep, foldElementStep, ElementNode.starting_tag, ElementNode.setDirectives,
      hif, hei, finishSeq_none, push_none]
  · intro hei hel
    rcases hval : d.v_else with _ | u
    · rw [hval] at hel; simp at hel
    · simp [foldStep, foldElementStep, ElementNode.starting_tag, hif, hei, hval,
        finishSeq_none, push_none]

/-- Witness for C8 amended at a concrete state: an orphan `<h2 v-else-if>`
is emitted in place with the payload consumed, and an orphan
`<h3 v-else>` is emitted in place untouched. -/
theorem orphan_directive_handling_witness :
    foldStep ⟨none, []⟩ (Node.Element orphanElseIfEl) =
      ⟨none, [Node.Element (orphanElseIfEl.setDirectives
        (some { { VueDirectives.empty with v_else_if := some ⟨"foo", true⟩ } with
                 v_else_if := none }))]⟩ ∧
    foldStep ⟨none, []⟩
        (Node.Element (.mk .Element ⟨"h3", [], some { VueDirectives.empty with v_else := some () }⟩
          [] 0 PatchHints.empty)) =
      ⟨none, [Node.Element (.mk .Element
        ⟨"h3", [], some { VueDirectives.empty with v_else := some () }⟩ [] 0 PatchHints.empty)]⟩ := by
  constructor
  · exact (orphan_directive_handling ⟨none, []⟩ orphanElseIfEl
      { VueDirectives.empty with v_else_if := some ⟨"foo", true⟩ } rfl rfl rfl).1 ⟨"foo", true⟩ rfl
  · exact (orphan_directive_handling ⟨none, []⟩
      (.mk .Element ⟨"h3", [], some { VueDirectives.empty with v_else := some () }⟩
        [] 0 PatchHints.empty)
      { VueDirectives.empty with v_else := some () } rfl rfl rfl).2 rfl rfl

/-- Whether the node at index `j` of the original sibling list is an element
or a comment (out-of-range indices are neither). -/
def elemOrCommentAt (cs : List Node) (j : Nat) : Bool :=
  match cs[j]? with
  | some n => isElementOrComment n
  | none => false

/-- Whether the node at index `j` of the original sibling list is a
whitespace-only text node. -/
def wsTextAt (cs : List Node) (j : Nat) : Bool :=
  match cs[j]? with
  | some n => isWhitespaceText n
  | none => false

/-- Claim C6's per-index drop decision over the original list: a leading or
trailing whitespace-only text node is dropped, and an interior
whitespace-only text node is dropped exactly when both of its immediate
neighbors in the original list are elements or comments. -/
def shouldDropWhitespace (cs : List Node) (j : Nat) : Bool :=
  (decide (j = 0) && wsTextAt cs j) ||
  (decide (j = cs.length - 1) && wsTextAt cs j) ||
  (decide (0 < j) && decide (j + 1 < cs.length) && wsTextAt cs j &&
    elemOrCommentAt cs (j - 1) && elemOrCommentAt cs (j + 1))

/-- Claim C6's whole elision pass: the per-index keep/drop decision applied
over the original list, keeping everything not dropped in original order. -/
def keepByClaim (cs : List Node) : List Node :=
  (List.range cs.length).filterMap fun j =>
    if shouldDropWhitespace cs j then none else cs[j]?

theorem elemOrCommentAt_cons_succ (n : Node) (cs : List Node) (k : Nat) :
    elemOrCommentAt (n :: cs) (k + 1) = elemOrCommentAt cs k := by
  simp [elemOrCommentAt]

theorem wsTextAt_cons_succ (n : Node) (cs : List Node) (k : Nat) :
    wsTextAt (n :: cs) (k + 1) = wsTextAt cs k := by
  simp [wsTextAt]

theorem testBit_one_shl (n j : Nat) : (1 <<< n).testBit j = decide (n = j) := by
  rw [Nat.shiftLeft_eq, one_mul, Nat.testBit_two_pow]

theorem and_shl_eq_zero (mask i : Nat) : (mask &&& (1 <<< i) == 0) = !mask.testBit i := by
  rw [Nat.shiftLeft_eq, one_mul, Nat.and_two_pow]
  cases h : mask.testBit i
  · simp
  · simp [Nat.pow_eq_zero]

theorem testBit_one (j : Nat) : Nat.testBit 1 j = decide (j = 0) := by
  have h := testBit_one_shl 0 j
  rw [Nat.shiftLeft_zero] at h
  rw [h]
  simp [eq_comm]

theorem firstMask_testBit (cs : List Node) (j : Nat) :
    (firstMask cs).testBit j = (decide (j = 0) && wsTextAt cs 0) := by
  unfold firstMask
  cases cs with
  | nil => simp [wsTextAt]
  | cons n ns =>
    rcases n with e | s | s | i | c <;>
      simp [wsTextAt, isWhitespaceText]
    by_cases hws : trimIsEmpty s
    · simp [hws, Nat.shiftLeft_zero, testBit_one]
    · simp [hws]

theorem lastMask_spec (cs : List Node) (h : cs.length ≤ 128) :
    ∃ m, lastMask cs = some m ∧
      ∀ j, m.testBit j =
        (decide (j = cs.length - 1) && wsTextAt cs (cs.length - 1)) := by
  unfold lastMask
  cases hl : cs.getLast? with
  | none =>
    have hnil : cs = [] := List.getLast?_eq_none_iff.mp hl
    subst hnil
    exact ⟨0, rfl, by intro j; simp [wsTextAt]⟩
  | some n =>
    have hne : cs ≠ [] := by
      rintro rfl; simp at hl
    have hlen : 0 < cs.length := List.length_pos.mpr hne
    have hget : cs[cs.length - 1]? = some n := by
      rw [← List.getLast?_eq_getElem?]; exact hl
    rcases n with e | s | s | i | c
    · exact ⟨0, rfl, by intro j; simp [wsTextAt, hget, isWhitespaceText]⟩
    · by_cases hws : trimIsEmpty s
      · refine ⟨1 <<< (cs.length - 1), ?_, ?_⟩
        · simp [hws, checkedShl, show cs.length - 1 < 128 by omega]
        · intro j
          simp [testBit_one_shl, wsTextAt, hget, isWhitespaceText, hws, eq_comm]
          rw [testBit_one]
          by_cases hj : j = cs.length - 1
          · simp [hj, show cs.length ≤ cs.length - 1 + 1 by omega,
              show cs.length - 1 - (cs.length - 1) = 0 by omega]
          · by_cases hj2 : cs.length ≤ j + 1
            · simp [hj, hj2, show j - (cs.length - 1) ≠ 0 by omega]
            · simp [hj, hj2]
      · refine ⟨0, by simp [hws], ?_⟩
        intro j
        simp [wsTextAt, hget, isWhitespaceText, hws]
    · exact ⟨0, rfl, by intro j; simp [wsTextAt, hget, isWhitespaceText]⟩
    · exact ⟨0, rfl, by intro j; simp [wsTextAt, hget, isWhitespaceText]⟩
    · exact ⟨0, rfl, by intro j; simp [wsTextAt, hget, isWhitespaceText]⟩

/-- The sliding-window drop condition of the claim, relative to a window
scan that starts at offset `i`: bit `j` is marked when the node at original
position `j - i` is a whitespace-only text node flanked at `j - i - 1` and
`j - i + 1` by elements or comments. -/
def windowHit (cs : List Node) (i j : Nat) : Bool :=
  decide (i + 1 ≤ j) && elemOrCommentAt cs (j - i - 1) && wsTextAt cs (j - i) &&
    elemOrCommentAt cs (j - i + 1)

theorem windowHit_short (cs : List Node) (hlen : cs.length ≤ 2) (i j : Nat) :
    windowHit cs i j = false := by
  unfold windowHit
  by_cases hij : i + 1 ≤ j
  · have : cs[j - i + 1]? = none := List.getElem?_eq_none (by omega)
    simp [elemOrCommentAt, this]
  · simp [hij]

theorem windowHit_lt (cs : List Node) (i j : Nat) (hj : j < i + 1) :
    windowHit cs i j = false := by
  unfold windowHit
  simp [show ¬(i + 1 ≤ j) from by omega]

theorem windowHit_cons_of_ge (n : Node) (cs : List Node) (i j : Nat) (hj : i + 2 ≤ j) :
    windowHit (n :: cs) i j = windowHit cs (i + 1) j := by
  obtain ⟨t, rfl⟩ : ∃ t, j = i + 2 + t := ⟨j - (i + 2), by omega⟩
  unfold windowHit
  rw [show i + 2 + t - i - 1 = t + 1 from by omega,
    show i + 2 + t - i = t + 2 from by omega,
    show i + 2 + t - (i + 1) - 1 = t from by omega,
    show i + 2 + t - (i + 1) = t + 1 from by omega]
  rw [show t + 2 + 1 = t + 3 from by omega, show t + 1 + 1 = t + 2 from by omega]
  rw [elemOrCommentAt_cons_succ, wsTextAt_cons_succ, elemOrCommentAt_cons_succ]
  simp [show i + 1 ≤ i + 2 + t from by omega, show i + 1 + 1 ≤ i + 2 + t from by omega]

theorem windowHit_at_next (a b c : Node) (rest : List Node) (i : Nat) :
    windowHit (a :: b :: c :: rest) i (i + 1) =
      (isElementOrComment a && isWhitespaceText b && isElementOrComment c) := by
  unfold windowHit
  rw [show i + 1 - i - 1 = 0 from by omega, show i + 1 - i = 1 from by omega]
  simp [elemOrCommentAt, wsTextAt, Bool.and_assoc]

theorem windowMask_spec (cs : List Node) : ∀ i : Nat, i + cs.length ≤ 129 →
    ∃ m, windowMask cs i = some m ∧ ∀ j, m.testBit j = windowHit cs i j := by
  induction cs with
  | nil =>
    intro i hi
    exact ⟨0, rfl, fun j => by rw [windowHit_short _ (by simp)]; simp⟩
  | cons a tail ih =>
    intro i hi
    rcases tail with _ | ⟨b, _ | ⟨c, rest⟩⟩
    · exact ⟨0, rfl, fun j => by rw [windowHit_short _ (by simp)]; simp⟩
    · exact ⟨0, rfl, fun j => by rw [windowHit_short _ (by simp)]; simp⟩
    · have hlen : i + 1 + (b :: c :: rest).length ≤ 129 := by
        simp at hi ⊢; omega
      obtain ⟨m', hm', hchar⟩ := ih (i + 1) hlen
      have hshl : checkedShl (i + 1) = some (1 <<< (i + 1)) := by
        simp at hi
        simp [checkedShl, show i + 1 < 128 from by omega]
      rcases b with e | v | s | itp | cseq
      · refine ⟨m', ?_, ?_⟩
        · simp [windowMask, hm']
        · intro j
          rw [hchar j]
          rcases Nat.lt_trichotomy j (i + 1) with hj | hj | hj
          · rw [windowHit_lt _ _ _ hj, windowHit_lt _ _ _ (by omega)]
          · subst hj
            rw [windowHit_lt _ _ _ (by omega), windowHit_at_next]
            simp [isWhitespaceText]
          · rw [windowHit_cons_of_ge a _ i j (by omega)]
      · by_cases hcond : isElementOrComment a && trimIsEmpty v && isElementOrComment c
        · refine ⟨m' ||| 1 <<< (i + 1), ?_, ?_⟩
          · simp [windowMask, hm', hcond, hshl]
          · intro j
            rw [Nat.testBit_or, hchar j, testBit_one_shl]
            rcases Nat.lt_trichotomy j (i + 1) with hj | hj | hj
            · rw [windowHit_lt _ _ _ hj, windowHit_lt _ _ _ (by omega)]
              simp [show ¬(i + 1 = j) from by omega]
            · subst hj
              rw [windowHit_lt _ _ _ (by omega), windowHit_at_next]
              simp [isWhitespaceText, hcond]
            · rw [windowHit_cons_of_ge a _ i j (by omega)]
              simp [show ¬(i + 1 = j) from by omega]
        · refine ⟨m', ?_, ?_⟩
          · simp [windowMask, hm', hcond]
          · intro j
            rw [hchar j]
            rcases Nat.lt_trichotomy j (i + 1) with hj | hj | hj
            · rw [windowHit_lt _ _ _ hj, windowHit_lt _ _ _ (by omega)]
            · subst hj
              rw [windowHit_lt _ _ _ (by omega), windowHit_at_next]
              simp only [isWhitespaceText]
              rw [eq_comm]
              simpa using hcond
            · rw [windowHit_cons_of_ge a _ i j (by omega)]
      · refine ⟨m', ?_, ?_⟩
        · simp [windowMask, hm']
        · intro j
          rw [hchar j]
          rcases Nat.lt_trichotomy j (i + 1) with hj | hj | hj
          · rw [windowHit_lt _ _ _ hj, windowHit_lt _ _ _ (by omega)]
          · subst hj
            rw [windowHit_lt _ _ _ (by omega), windowHit_at_next]
            simp [isWhitespaceText]
          · rw [windowHit_cons_of_ge a _ i j (by omega)]
      · refine ⟨m', ?_, ?_⟩
        · simp [windowMask, hm']
        · intro j
          rw [hchar j]
          rcases Nat.lt_trichotomy j (i + 1) with hj | hj | hj
          · rw [windowHit_lt _ _ _ hj, windowHit_lt _ _ _ (by omega)]
          · subst hj
            rw [windowHit_lt _ _ _ (by omega), windowHit_at_next]
            simp [isWhitespaceText]
          · rw [windowHit_cons_of_ge a _ i j (by omega)]
      · refine ⟨m', ?_, ?_⟩
        · simp [windowMask, hm']
        · intro j
          rw [hchar j]
          rcases Nat.lt_trichotomy j (i + 1) with hj | hj | hj
          · rw [windowHit_lt _ _ _ hj, windowHit_lt _ _ _ (by omega)]
          · subst hj
            rw [windowHit_lt _ _ _ (by omega), windowHit_at_next]
            simp [isWhitespaceText]
          · rw [windowHit_cons_of_ge a _ i j (by omega)]

/-- The `retain` loop as a pure positional filter. -/
def filterWithPos (mask : Nat) : List Node → Nat → List Node
  | [], _ => []
  | n :: ns, i =>
    if mask.testBit i then filterWithPos mask ns (i + 1)
    else n :: filterWithPos mask ns (i + 1)

theorem retainByMask_eq_filterWithPos (mask : Nat) :
    ∀ (cs : List Node) (i : Nat), i + cs.length ≤ 128 →
      retainByMask mask cs i = some (filterWithPos mask cs i) := by
  intro cs
  induction cs with
  | nil => intro i hi; rfl
  | cons n ns ih =>
    intro i hi
    have hi' : i < 128 := by simp at hi; omega
    have hshl : checkedShl i = some (1 <<< i) := by simp [checkedShl, hi']
    have hrec := ih (i + 1) (by simp at hi ⊢; omega)
    rw [retainByMask]
    simp only [hshl, hrec, Option.bind_eq_bind, Option.some_bind, Option.pure_def]
    rw [and_shl_eq_zero]
    by_cases hb : mask.testBit i <;> simp [hb, filterWithPos]

theorem filterWithPos_eq (mask : Nat) :
    ∀ (cs : List Node) (i : Nat),
      filterWithPos mask cs i =
        (List.range cs.length).filterMap fun k =>
          if mask.testBit (i + k) then none else cs[k]? := by
  intro cs
  induction cs with
  | nil => intro i; simp [filterWithPos]
  | cons n ns ih =>
    intro i
    rw [List.length_cons, List.range_succ_eq_map, List.filterMap_cons]
    have hcomp : ((fun k => if mask.testBit (i + k) then none else (n :: ns)[k]?) ∘ Nat.succ)
        = fun k => if mask.testBit ((i + 1) + k) then none else ns[k]? := by
      funext k
      simp [Function.comp, List.getElem?_cons_succ,
        show i + (k + 1) = (i + 1) + k from by omega]
    rw [List.filterMap_map, hcomp, ← ih (i + 1)]
    rw [filterWithPos]
    by_cases hb : mask.testBit i <;> simp [hb]

theorem elemOrCommentAt_lt {cs : List Node} {m : Nat}
    (h : elemOrCommentAt cs m = true) : m < cs.length := by
  unfold elemOrCommentAt at h
  rcases hg : cs[m]? with _ | n
  · rw [hg] at h; simp at h
  · exact (List.getElem?_eq_some.mp hg).1

theorem mask_testBit_eq_shouldDrop (cs : List Node) (m2 m3 : Nat)
    (hc2 : ∀ j, m2.testBit j =
      (decide (j = cs.length - 1) && wsTextAt cs (cs.length - 1)))
    (hc3 : ∀ j, m3.testBit j = windowHit cs 0 j) (k : Nat) :
    (firstMask cs ||| m2 ||| m3).testBit k = shouldDropWhitespace cs k := by
  rw [Nat.testBit_or, Nat.testBit_or, firstMask_testBit, hc2, hc3]
  unfold shouldDropWhitespace windowHit
  rw [show k - 0 - 1 = k - 1 from by omega, show k - 0 = k from by omega]
  by_cases h0 : k = 0
  · subst h0
    simp
    by_cases hl : (0 : Nat) = cs.length - 1
    · rw [← hl]
    · simp [hl]
  · simp only [decide_eq_false h0, Bool.false_and, Bool.false_or]
    by_cases hlast : k = cs.length - 1
    · simp only [decide_eq_true hlast, Bool.true_and]
      rw [hlast]
      have hec : elemOrCommentAt cs (cs.length - 1 + 1) = false := by
        unfold elemOrCommentAt
        rw [List.getElem?_eq_none (by omega)]
      by_cases hlen2 : 2 ≤ cs.length
      · simp [hec, show ¬(cs.length - 1 + 1 < cs.length) from by omega]
      · simp [hec, show ¬(0 < cs.length - 1) from by omega]
    · simp only [decide_eq_false hlast, Bool.false_and, Bool.false_or]
      have h1 : decide (1 ≤ k) = true := by simp; omega
      have h2 : decide (0 < k) = true := by simp; omega
      rw [h1, h2]
      simp only [Bool.true_and]
      rcases hec : elemOrCommentAt cs (k + 1) with _ | _
      · simp [hec]
      · have hk1 : k + 1 < cs.length := elemOrCommentAt_lt hec
        simp [hec, show k + 1 < cs.length from hk1]
        rw [Bool.and_comm (elemOrCommentAt cs (k - 1)) (wsTextAt cs k)]

theorem elideWhitespace_eq_keepByClaim (cs : List Node) (h : cs.length ≤ 128) :
    elideWhitespace cs = some (keepByClaim cs) := by
  obtain ⟨m2, hm2, hc2⟩ := lastMask_spec cs h
  obtain ⟨m3, hm3, hc3⟩ := windowMask_spec cs 0 (by omega)
  unfold elideWhitespace
  rw [hm2, hm3]
  simp only [Option.bind_eq_bind, Option.some_bind]
  rw [retainByMask_eq_filterWithPos _ cs 0 (by omega), filterWithPos_eq]
  unfold keepByClaim
  congr 1
  apply List.filterMap_congr
  intro k _
  rw [show (0 : Nat) + k = k from by omega,
    mask_testBit_eq_shouldDrop cs m2 m3 hc2 hc3 k]

/-- C6: Whitespace elision.  Under the 128-children implementation limit
(claim C7 covers its violation) the elision pass drops exactly the nodes
described by the claim: a leading or trailing whitespace-only text node,
and an interior whitespace-only text node both of whose immediate
neighbors in the original list are elements or comments; every other node
is kept in its original relative order. -/
theorem whitespace_elision (cs : List Node) (h : cs.length ≤ 128) :
    elideWhitespace cs = some (keepByClaim cs) :=
  elideWhitespace_eq_keepByClaim cs h

/-- Witness for C6 at a concrete sibling list: in
`[ws, div, ws, p, "x", ws]` the leading and trailing whitespace and the
whitespace between the two elements are dropped; the whitespace node whose
right neighbor is a text node is kept. -/
theorem whitespace_elision_witness :
    elideWhitespace
        [Node.Text " ", Node.Element (.mk .Element ⟨"div", [], none⟩ [] 0 PatchHints.empty),
         Node.Text " ", Node.Element (.mk .Element ⟨"p", [], none⟩ [] 0 PatchHints.empty),
         Node.Text " ", Node.Text "x", Node.Text " "] =
      some [Node.Element (.mk .Element ⟨"div", [], none⟩ [] 0 PatchHints.empty),
        Node.Element (.mk .Element ⟨"p", [], none⟩ [] 0 PatchHints.empty),
        Node.Text " ", Node.Text "x"] := by
  rw [whitespace_elision _ (by simp)]
  rfl

mutual

/-- `p` holds of every element node of this element's subtree (itself
included). -/
def ElementNode.allElems (p : ElementNode → Bool) : ElementNode → Bool
  | .mk k st ch sc ph => p (.mk k st ch sc ph) && Node.allElemsList p ch

/-- `p` holds of every element node of this node's subtree. -/
def Node.allElems (p : ElementNode → Bool) : Node → Bool
  | .Element e => e.allElems p
  | .ConditionalSeq c => c.allElems p
  | _ => true

/-- `p` holds of every element node inside this conditional sequence. -/
def ConditionalNodeSequence.allElems (p : ElementNode → Bool) :
    ConditionalNodeSequence → Bool
  | .mk ifn elifs els =>
    ifn.allElems p && Conditional.allElemsList p elifs &&
      (match els with
       | some e => e.allElems p
       | none => true)

/-- `p` holds of every element node inside this conditional branch. -/
def Conditional.allElems (p : ElementNode → Bool) : Conditional → Bool
  | .mk _ n => n.allElems p

/-- `p` holds of every element node under any node of the list. -/
def Node.allElemsList (p : ElementNode → Bool) : List Node → Bool
  | [] => true
  | n :: ns => n.allElems p && Node.allElemsList p ns

/-- `p` holds of every element node under any branch of the list. -/
def Conditional.allElemsList (p : ElementNode → Bool) : List Conditional → Bool
  | [] => true
  | c :: cs => c.allElems p && Conditional.allElemsList p cs

end

theorem Node.allElemsList_iff (p : ElementNode → Bool) (cs : List Node) :
    Node.allElemsList p cs = true ↔ ∀ n ∈ cs, Node.allElems p n = true := by
  induction cs with
  | nil => simp [Node.allElemsList]
  | cons n ns ih => simp [Node.allElemsList, ih]

theorem ElementNode.allElems_def (p : ElementNode → Bool) (e : ElementNode) :
    e.allElems p = (p e && Node.allElemsList p e.children) := by
  cases e; rfl

theorem ElementNode.allElems_setDirectives (p : ElementNode → Bool) (e : ElementNode)
    (dd : Option VueDirectives) :
    (e.setDirectives dd).allElems p =
      (p (e.setDirectives dd) && Node.allElemsList p e.children) := by
  cases e; rfl

theorem retainByMask_mem {mask : Nat} :
    ∀ {cs : List Node} {i : Nat} {cs' : List Node},
      retainByMask mask cs i = some cs' → ∀ n ∈ cs', n ∈ cs := by
  intro cs
  induction cs with
  | nil =>
    intro i cs' h n hn
    simp [retainByMask] at h
    subst h
    simp at hn
  | cons c cs ih =>
    intro i cs' h n hn
    simp only [retainByMask, Option.bind_eq_bind, Option.bind_eq_some, Option.pure_def,
      Option.some.injEq] at h
    obtain ⟨s, hs, rest, hr, hout⟩ := h
    by_cases hbit : mask &&& s == 0
    · rw [if_pos hbit] at hout
      subst hout
      rcases List.mem_cons.mp hn with hn | hn
      · simp [hn]
      · exact List.mem_cons_of_mem _ (ih hr n hn)
    · rw [if_neg hbit] at hout
      subst hout
      exact List.mem_cons_of_mem _ (ih hr n hn)

theorem elideWhitespace_mem {cs cs' : List Node}
    (h : elideWhitespace cs = some cs') : ∀ n ∈ cs', n ∈ cs := by
  unfold elideWhitespace at h
  simp only [Option.bind_eq_bind, Option.bind_eq_some] at h
  obtain ⟨m2, _, m3, _, hr⟩ := h
  exact retainByMask_mem hr

theorem sortSlots_mem (k : ElementKind) (cs : List Node) :
    ∀ n ∈ sortSlots k cs, n ∈ cs := by
  intro n hn
  unfold sortSlots at hn
  rcases k with _ | t | _
  · exact hn
  · exact hn
  · by_cases hl : cs.length > 0
    · rw [if_pos hl] at hn
      exact (List.mergeSort_perm cs _).subset hn
    · rw [if_neg hl] at hn
      exact hn

theorem Node.allElemsList_append (p : ElementNode → Bool) (xs ys : List Node) :
    Node.allElemsList p (xs ++ ys) =
      (Node.allElemsList p xs && Node.allElemsList p ys) := by
  induction xs with
  | nil => simp [Node.allElemsList]
  | cons x xs ih => simp [Node.allElemsList, ih, Bool.and_assoc]

theorem Conditional.allElemsList_app (p : ElementNode → Bool)
    (xs ys : List Conditional) :
    Conditional.allElemsList p (xs ++ ys) =
      (Conditional.allElemsList p xs && Conditional.allElemsList p ys) := by
  induction xs with
  | nil => simp [Conditional.allElemsList]
  | cons x xs ih => simp [Conditional.allElemsList, ih, Bool.and_assoc]

/-- The conditional fold empties only the `v_if`/`v_else_if` slots of the
elements it rearranges; a per-element predicate that does not change under
those two takes is preserved by it. -/
def DirInsensitive (p : ElementNode → Bool) : Prop :=
  ∀ (e : ElementNode) (d : VueDirectives), e.starting_tag.directives = some d →
    p (e.setDirectives (some { d with v_if := none })) = p e ∧
    p (e.setDirectives (some { d with v_else_if := none })) = p e

/-- `p` holds of every element inside the (possibly) open sequence. -/
def optSeqAll (p : ElementNode → Bool) : Option ConditionalNodeSequence → Bool
  | some s => s.allElems p
  | none => true

theorem foldSpecGo_allElems (p : ElementNode → Bool) (hp : DirInsensitive p) :
    ∀ (cs : List Node) (seq : Option ConditionalNodeSequence),
      Node.allElemsList p cs = true → optSeqAll p seq = true →
      Node.allElemsList p (foldSpecGo seq cs) = true := by
  intro cs
  induction cs with
  | nil =>
    intro seq _ hseq
    rcases seq with _ | s <;>
      simp_all [foldSpecGo, closeSeq, Node.allElemsList, Node.allElems, optSeqAll]
  | cons child rest ih =>
    intro seq hcs hseq
    rw [Node.allElemsList] at hcs
    obtain ⟨hchild, hrest⟩ := Bool.and_eq_true_iff.mp hcs
    rcases child with el | s | s | i | c
    · rcases hdirs : el.starting_tag.directives with _ | d
      · simp only [foldSpecGo, hdirs]
        rw [Node.allElemsList_append, Node.allElemsList_append]
        simp [Node.allElemsList, hchild, ih none hrest (by simp [optSeqAll])]
        rcases seq with _ | s <;> simp_all [closeSeq, Node.allElemsList, Node.allElems, optSeqAll]
      · rcases hif : d.v_if with _ | cond
        · rcases hei : d.v_else_if with _ | cond
          · rcases hel : d.v_else with _ | u
            · simp only [foldSpecGo, hdirs, hif, hei, hel]
              rw [Node.allElemsList_append, Node.allElemsList_append]
              simp [Node.allElemsList, hchild, ih none hrest (by simp [optSeqAll])]
              rcases seq with _ | s <;>
                simp_all [closeSeq, Node.allElemsList, Node.allElems, optSeqAll]
            · rcases seq with _ | s
              · simp only [foldSpecGo, hdirs, hif, hei, hel]
                rw [Node.allElemsList_append]
                simp [closeSeq, Node.allElemsList, hchild,
                  ih none hrest (by simp [optSeqAll])]
              · rcases s with ⟨ifn, elifs, els⟩
                rcases els with _ | e0 <;>
                · simp only [foldSpecGo, hdirs, hif, hei, hel]
                  rw [Node.allElemsList_append]
                  refine Bool.and_eq_true_iff.mpr
                    ⟨?_, ih none hrest (by simp [optSeqAll])⟩
                  simp only [closeSeq, Node.allElemsList, Node.allElems,
                    ConditionalNodeSequence.allElems, ConditionalNodeSequence.if_node,
                    ConditionalNodeSequence.else_if_nodes, optSeqAll] at hseq ⊢
                  simp only [Node.allElems] at hchild
                  simp_all
          · rcases seq with _ | s
            · simp only [foldSpecGo, hdirs, hif, hei]
              rw [List.singleton_append, Node.allElemsList]
              have hmod := (hp el d hdirs).2
              simp only [Node.allElems] at hchild
              rw [ElementNode.allElems_def] at hchild
              simp [Node.allElems, ElementNode.allElems_setDirectives, hmod,
                ih none hrest (by simp [optSeqAll])]
              try simp_all
            · rcases s with ⟨ifn, elifs, els⟩
              rcases els with _ | e0 <;>
              · simp only [foldSpecGo, hdirs, hif, hei]
                apply ih (some _) hrest
                have hmod := (hp el d hdirs).2
                simp only [optSeqAll, ConditionalNodeSequence.allElems,
                  ConditionalNodeSequence.if_node, ConditionalNodeSequence.else_if_nodes,
                  ConditionalNodeSequence.else_node] at hseq ⊢
                rw [Conditional.allElemsList_app]
                simp only [Node.allElems] at hchild
                rw [ElementNode.allElems_def] at hchild
                simp [Conditional.allElemsList, Conditional.allElems,
                  ElementNode.allElems_setDirectives, hmod]
                simp_all
        · simp only [foldSpecGo, hdirs, hif]
          rw [Node.allElemsList_append]
          refine Bool.and_eq_true_iff.mpr ⟨?_, ?_⟩
          · rcases seq with _ | s <;>
              simp_all [closeSeq, Node.allElemsList, Node.allElems, optSeqAll]
          · apply ih (some _) hrest
            have hmod := (hp el d hdirs).1
            simp only [Node.allElems] at hchild
            rw [ElementNode.allElems_def] at hchild
            simp [optSeqAll, ConditionalNodeSequence.allElems, Conditional.allElems,
              Conditional.allElemsList, ElementNode.allElems_setDirectives, hmod,
              ConditionalNodeSequence.if_node, ConditionalNodeSequence.else_if_nodes]
            simp_all
    · simp only [foldSpecGo]
      rw [Node.allElemsList_append, Node.allElemsList_append]
      simp [Node.allElemsList, hchild, ih none hrest (by simp [optSeqAll])]
      rcases seq with _ | s0 <;>
        simp_all [closeSeq, Node.allElemsList, Node.allElems, optSeqAll]
    · rcases seq with _ | s0
      · simp only [foldSpecGo]
        rw [List.singleton_append, Node.allElemsList]
        simp [Node.allElems, ih none hrest (by simp [optSeqAll])]
      · simp only [foldSpecGo]
        exact ih (some s0) hrest hseq
    · simp only [foldSpecGo]
      rw [Node.allElemsList_append, Node.allElemsList_append]
      simp [Node.allElemsList, hchild, ih none hrest (by simp [optSeqAll])]
      rcases seq with _ | s0 <;>
        simp_all [closeSeq, Node.allElemsList, Node.allElems, optSeqAll]
    · simp only [foldSpecGo]
      rw [Node.allElemsList_append, Node.allElemsList_append]
      simp [Node.allElemsList, hchild, ih none hrest (by simp [optSeqAll])]
      rcases seq with _ | s0 <;>
        simp_all [closeSeq, Node.allElemsList, Node.allElems, optSeqAll]

theorem foldConditionals_eq_spec (cs : List Node) :
    foldConditionals cs = foldSpecGo none cs := by
  cases cs with
  | nil => rfl
  | cons c rest =>
    have h5 : foldConditionals (c :: rest) =
        (finishSeq ((c :: rest).foldl foldStep ⟨none, []⟩)).out := by
      simp [foldConditionals]
    rw [h5, foldl_foldStep_spec (c :: rest) none []]
    rfl

theorem foldSpecGo_length (cs : List Node) :
    ∀ seq, (foldSpecGo seq cs).length ≤ (closeSeq seq).length + cs.length := by
  induction cs with
  | nil => intro seq; simp [foldSpecGo]
  | cons child rest ih =>
    intro seq
    have hclose : ∀ s : Option ConditionalNodeSequence, (closeSeq s).length ≤ 1 := by
      intro s; rcases s with _ | s <;> simp [closeSeq]
    rcases child with el | s | s | i | c
    · rcases hdirs : el.starting_tag.directives with _ | d
      · simp only [foldSpecGo, hdirs, List.length_append, List.length_cons]
        have := ih none
        have := hclose seq
        simp [closeSeq, List.length_append] at *
        omega
      · rcases hif : d.v_if with _ | cond
        · rcases hei : d.v_else_if with _ | cond
          · rcases hel : d.v_else with _ | u
            · simp only [foldSpecGo, hdirs, hif, hei, hel, List.length_append]
              have := ih none
              have := hclose seq
              simp [closeSeq, List.length_append] at *
              omega
            · rcases seq with _ | s
              · simp only [foldSpecGo, hdirs, hif, hei, hel]
                have := ih none
                simp [closeSeq, List.length_append] at *
                omega
              · simp only [foldSpecGo, hdirs, hif, hei, hel, List.length_append]
                have := ih none
                simp [closeSeq, List.length_append] at *
                omega
          · rcases seq with _ | s
            · simp only [foldSpecGo, hdirs, hif, hei]
              have := ih none
              simp [closeSeq, List.length_append] at *
              omega
            · simp only [foldSpecGo, hdirs, hif, hei]
              refine le_trans (ih _) ?_
              simp only [closeSeq, List.length_cons]
              omega
        · rcases seq with _ | s <;>
          · simp only [foldSpecGo, hdirs, hif, List.length_append]
            refine le_trans (Nat.add_le_add_left (ih _) _) ?_
            simp only [closeSeq, List.length_cons, List.length_nil]
            omega
    · simp only [foldSpecGo, List.length_append]
      have := ih none
      have := hclose seq
      simp [closeSeq, List.length_append] at *
      omega
    · rcases seq with _ | s0
      · simp only [foldSpecGo]
        have := ih none
        simp [closeSeq, List.length_append] at *
        omega
      · simp only [foldSpecGo]
        refine le_trans (ih _) ?_
        simp only [closeSeq, List.length_cons]
        omega
    · simp only [foldSpecGo, List.length_append]
      have := ih none
      have := hclose seq
      simp [closeSeq, List.length_append] at *
      omega
    · simp only [foldSpecGo, List.length_append]
      have := ih none
      have := hclose seq
      simp [closeSeq, List.length_append] at *
      omega

theorem optimize_children_allElems (p : ElementNode → Bool) (hp : DirInsensitive p)
    {cs : List Node} {k : ElementKind} {cs' : List Node}
    (h : optimize_children cs k = some cs')
    (hall : ∀ n ∈ cs, Node.allElems p n = true) :
    Node.allElemsList p cs' = true := by
  unfold optimize_children at h
  obtain ⟨mid, he, hf⟩ := Option.map_eq_some'.mp h
  subst hf
  rw [foldConditionals_eq_spec]
  apply foldSpecGo_allElems p hp _ none _ (by simp [optSeqAll])
  rw [Node.allElemsList_iff]
  intro n hn
  exact hall n (elideWhitespace_mem he n (sortSlots_mem k mid n hn))

theorem retainByMask_length_le {mask : Nat} :
    ∀ {cs : List Node} {i : Nat} {cs' : List Node},
      retainByMask mask cs i = some cs' → cs'.length ≤ cs.length := by
  intro cs
  induction cs with
  | nil => intro i cs' h; simp [retainByMask] at h; simp [h.symm]
  | cons c cs ih =>
    intro i cs' h
    simp only [retainByMask, Option.bind_eq_bind, Option.bind_eq_some, Option.pure_def,
      Option.some.injEq] at h
    obtain ⟨s, hs, rest, hr, hout⟩ := h
    have := ih hr
    by_cases hbit : mask &&& s == 0
    · rw [if_pos hbit] at hout; subst hout; simp; omega
    · rw [if_neg hbit] at hout; subst hout; simp; omega

theorem elideWhitespace_length_le {cs cs' : List Node}
    (h : elideWhitespace cs = some cs') : cs'.length ≤ cs.length := by
  unfold elideWhitespace at h
  simp only [Option.bind_eq_bind, Option.bind_eq_some] at h
  obtain ⟨m2, _, m3, _, hr⟩ := h
  exact retainByMask_length_le hr

theorem sortSlots_length (k : ElementKind) (cs : List Node) :
    (sortSlots k cs).length = cs.length := by
  unfold sortSlots
  rcases k with _ | t | _
  · rfl
  · rfl
  · by_cases hl : cs.length > 0
    · rw [if_pos hl]
      exact (List.mergeSort_perm cs _).length_eq
    · rw [if_neg hl]

theorem optimize_children_length_le {cs : List Node} {k : ElementKind} {cs' : List Node}
    (h : optimize_children cs k = some cs') : cs'.length ≤ cs.length := by
  unfold optimize_children at h
  obtain ⟨mid, he, hf⟩ := Option.map_eq_some'.mp h
  subst hf
  have h1 := foldSpecGo_length (sortSlots k mid) none
  rw [← foldConditionals_eq_spec] at h1
  have h2 := sortSlots_length k mid
  have h3 := elideWhitespace_length_le he
  simp [closeSeq] at h1
  omega

theorem optimize_children_isSome (cs : List Node) (k : ElementKind)
    (h : cs.length ≤ 128) : ∃ cs', optimize_children cs k = some cs' := by
  unfold optimize_children
  rw [elideWhitespace_eq_keepByClaim cs h]
  exact ⟨_, rfl⟩

/-- The per-element form of the 128-children implementation limit. -/
def boundedE : ElementNode → Bool := fun e => decide (e.children.length ≤ 128)

theorem boundedE_dirInsensitive : DirInsensitive boundedE := by
  intro e d _
  rcases e with ⟨k, st, ch, sc, ph⟩
  constructor <;> rfl

/-- Non-dependent unfolding of `visitElementNode` (its definition binds the
optimizer result with an equation for the termination proof; this is the
same function expressed with `Option.bind`/`Option.map`). -/
theorem visitElementNode_unfold (h : BindingsHelper) (sc : Nat) (e : ElementNode) :
    visitElementNode h sc e =
      (optimize_children e.children (recognize_element_kind e.starting_tag)).bind
        fun optimized =>
          (visitNodes (processScopeDirectives h sc e.starting_tag).1
              (processScopeDirectives h sc e.starting_tag).2.1 optimized).map fun r =>
            (ElementNode.mk (recognize_element_kind e.starting_tag)
              ⟨e.starting_tag.tag_name,
               (transformAttrs (recognize_element_kind e.starting_tag).isComponent
                 e.patch_hints e.starting_tag.attributes).2,
               (processScopeDirectives h sc e.starting_tag).2.2⟩
              r.1 (processScopeDirectives h sc e.starting_tag).2.1
              ⟨applyTextFlag (recognize_element_kind e.starting_tag) optimized r.1
                 (transformAttrs (recognize_element_kind e.starting_tag).isComponent
                   e.patch_hints e.starting_tag.attributes).1.flags,
               (transformAttrs (recognize_element_kind e.starting_tag).isComponent
                 e.patch_hints e.starting_tag.attributes).1.props⟩, r.2) := by
  rw [visitElementNode]
  split
  · rename_i heq
    rw [heq]
    rfl
  · rename_i opt heq
    rw [heq]
    split
    · rename_i heq2
      simp only [Option.some_bind]
      rw [heq2]
      rfl
    · rename_i cs1 h2 heq2
      simp only [Option.some_bind]
      rw [heq2]
      rfl

theorem visitNode_element (h : BindingsHelper) (sc : Nat) (e : ElementNode) :
    visitNode h sc (Node.Element e) =
      (visitElementNode h sc e).map fun r => (Node.Element r.1, r.2) := by
  rw [visitNode]
  rcases visitElementNode h sc e with _ | ⟨e1, h1⟩ <;> rfl

theorem visitNode_condseq (h : BindingsHelper) (sc : Nat) (c : ConditionalNodeSequence) :
    visitNode h sc (Node.ConditionalSeq c) =
      (visitConditionalNode h sc c).map fun r => (Node.ConditionalSeq r.1, r.2) := by
  rw [visitNode]
  rcases visitConditionalNode h sc c with _ | ⟨c1, h1⟩ <;> rfl

theorem visitNode_text (h : BindingsHelper) (sc : Nat) (s : String) :
    visitNode h sc (Node.Text s) = some (Node.Text s, h) := by
  rw [visitNode] <;> simp

theorem visitNode_comment (h : BindingsHelper) (sc : Nat) (s : String) :
    visitNode h sc (Node.Comment s) = some (Node.Comment s, h) := by
  rw [visitNode] <;> simp

theorem visitNode_interpolation (h : BindingsHelper) (sc : Nat) (i : Interpolation) :
    visitNode h sc (Node.Interpolation i) =
      some (Node.Interpolation ⟨(transform_expr i.value sc).1, sc,
        (transform_expr i.value sc).2⟩, h) := by
  rw [visitNode] <;> simp

theorem visit_total : ∀ W : Nat,
    (∀ e : ElementNode, e.weight ≤ W → ElementNode.allElems boundedE e = true →
      ∀ h sc, (visitElementNode h sc e).isSome) ∧
    (∀ l : List Conditional, Conditional.listWeight l ≤ W →
      Conditional.allElemsList boundedE l = true →
      ∀ h sc, (visitConditionals h sc l).isSome) ∧
    (∀ c : ConditionalNodeSequence, c.weight ≤ W →
      ConditionalNodeSequence.allElems boundedE c = true →
      ∀ h sc, (visitConditionalNode h sc c).isSome) ∧
    (∀ n : Node, n.weight ≤ W → Node.allElems boundedE n = true →
      ∀ h sc, (visitNode h sc n).isSome) ∧
    (∀ l : List Node, Node.listWeight l ≤ W → Node.allElemsList boundedE l = true →
      ∀ h sc, (visitNodes h sc l).isSome) := by
  intro W
  induction W using Nat.strong_induction_on with
  | _ W ih =>
  have hel : ∀ e : ElementNode, e.weight ≤ W → ElementNode.allElems boundedE e = true →
      ∀ h sc, (visitElementNode h sc e).isSome := by
    intro e hw hb h sc
    have hbE := Bool.and_eq_true_iff.mp ((ElementNode.allElems_def boundedE e) ▸ hb)
    have hlen : e.children.length ≤ 128 := by
      have := hbE.1
      simpa [boundedE] using this
    obtain ⟨opt, hopt⟩ :=
      optimize_children_isSome e.children (recognize_element_kind e.starting_tag) hlen
    have hoptw : Node.listWeight opt ≤ Node.listWeight e.children :=
      optimize_children_weight hopt
    have hwe := e.weight_eq
    have hWlt : Node.listWeight opt < W := by omega
    have hoptb : Node.allElemsList boundedE opt = true :=
      optimize_children_allElems boundedE boundedE_dirInsensitive hopt
        ((Node.allElemsList_iff _ _).mp hbE.2)
    have hnodes := ((ih (Node.listWeight opt) hWlt).2.2.2.2) opt le_rfl hoptb
      (processScopeDirectives h sc e.starting_tag).1
      (processScopeDirectives h sc e.starting_tag).2.1
    obtain ⟨res, hres⟩ := Option.isSome_iff_exists.mp hnodes
    rcases res with ⟨cs1, h2⟩
    rw [visitElementNode_unfold, hopt]
    simp only [Option.some_bind]
    rw [hres]
    rfl
  have hcondl : ∀ l : List Conditional, Conditional.listWeight l ≤ W →
      Conditional.allElemsList boundedE l = true →
      ∀ h sc, (visitConditionals h sc l).isSome := by
    intro l
    induction l with
    | nil =>
      intro _ _ h sc
      rw [visitConditionals]
      simp
    | cons c rest ihl =>
      intro hwl hbl h sc
      rcases c with ⟨ce, ne⟩
      simp only [Conditional.allElemsList, Conditional.allElems] at hbl
      obtain ⟨hbne, hbrest⟩ := Bool.and_eq_true_iff.mp hbl
      have hwc : ne.weight + Conditional.listWeight rest ≤ W := by
        simpa [Conditional.listWeight, Conditional.weight] using hwl
      obtain ⟨res1, hres1⟩ := Option.isSome_iff_exists.mp
        (hel ne (by omega) hbne h sc)
      rcases res1 with ⟨el1, h1⟩
      obtain ⟨res2, hres2⟩ := Option.isSome_iff_exists.mp
        (ihl (by omega) hbrest h1 sc)
      rcases res2 with ⟨rest1, h2⟩
      rw [visitConditionals]
      simp only [Conditional.node, Conditional.condition, hres1, hres2]
      simp
  have hcond : ∀ c : ConditionalNodeSequence, c.weight ≤ W →
      ConditionalNodeSequence.allElems boundedE c = true →
      ∀ h sc, (visitConditionalNode h sc c).isSome := by
    intro c hw hb h sc
    rcases c with ⟨⟨ce, ne⟩, elifs, els⟩
    rcases els with _ | el2
    · simp only [ConditionalNodeSequence.allElems, Conditional.allElems] at hb
      have hw2 : ne.weight + Conditional.listWeight elifs ≤ W := by
        simpa [ConditionalNodeSequence.weight, Conditional.weight] using hw
      simp only [Bool.and_true] at hb
      obtain ⟨hbne, hbelifs⟩ := Bool.and_eq_true_iff.mp hb
      obtain ⟨res1, hres1⟩ := Option.isSome_iff_exists.mp (hel ne (by omega) hbne h sc)
      rcases res1 with ⟨el1, h1⟩
      obtain ⟨res2, hres2⟩ := Option.isSome_iff_exists.mp
        (hcondl elifs (by omega) hbelifs h1 sc)
      rcases res2 with ⟨elifs1, h2⟩
      rw [visitConditionalNode]
      simp only [ConditionalNodeSequence.if_node, ConditionalNodeSequence.else_if_nodes,
        ConditionalNodeSequence.else_node, Conditional.node, Conditional.condition,
        hres1, hres2]
      simp
    · simp only [ConditionalNodeSequence.allElems, Conditional.allElems] at hb
      have hw2 : ne.weight + Conditional.listWeight elifs + el2.weight ≤ W := by
        simpa [ConditionalNodeSequence.weight, Conditional.weight] using hw
      obtain ⟨hbif, hbel2⟩ := Bool.and_eq_true_iff.mp hb
      obtain ⟨hbne, hbelifs⟩ := Bool.and_eq_true_iff.mp hbif
      obtain ⟨res1, hres1⟩ := Option.isSome_iff_exists.mp (hel ne (by omega) hbne h sc)
      rcases res1 with ⟨el1, h1⟩
      obtain ⟨res2, hres2⟩ := Option.isSome_iff_exists.mp
        (hcondl elifs (by omega) hbelifs h1 sc)
      rcases res2 with ⟨elifs1, h2⟩
      obtain ⟨res3, hres3⟩ := Option.isSome_iff_exists.mp (hel el2 (by omega) hbel2 h2 sc)
      rcases res3 with ⟨el3, h3⟩
      rw [visitConditionalNode]
      simp only [ConditionalNodeSequence.if_node, ConditionalNodeSequence.else_if_nodes,
        ConditionalNodeSequence.else_node, Conditional.node, Conditional.condition,
        hres1, hres2, hres3]
      simp
  have hnode : ∀ n : Node, n.weight ≤ W → Node.allElems boundedE n = true →
      ∀ h sc, (visitNode h sc n).isSome := by
    intro n hw hb h sc
    rcases n with e | str | str | i | c
    · obtain ⟨res1, hres1⟩ := Option.isSome_iff_exists.mp
        (hel e (by simpa [Node.weight] using hw) (by simpa [Node.allElems] using hb) h sc)
      rcases res1 with ⟨e1, h1⟩
      rw [visitNode_element, hres1]
      rfl
    · rw [visitNode_text]; rfl
    · rw [visitNode_comment]; rfl
    · rw [visitNode_interpolation]; rfl
    · obtain ⟨res1, hres1⟩ := Option.isSome_iff_exists.mp
        (hcond c (by simpa [Node.weight] using hw) (by simpa [Node.allElems] using hb) h sc)
      rcases res1 with ⟨c1, h1⟩
      rw [visitNode_condseq, hres1]
      rfl
  have hnodesl : ∀ l : List Node, Node.listWeight l ≤ W →
      Node.allElemsList boundedE l = true → ∀ h sc, (visitNodes h sc l).isSome := by
    intro l
    induction l with
    | nil =>
      intro _ _ h sc
      rw [visitNodes]
      simp
    | cons n rest ihl =>
      intro hwl hbl h sc
      simp only [Node.allElemsList] at hbl
      obtain ⟨hbn, hbrest⟩ := Bool.and_eq_true_iff.mp hbl
      have hwc : n.weight + Node.listWeight rest ≤ W := by
        simpa [Node.listWeight] using hwl
      obtain ⟨res1, hres1⟩ := Option.isSome_iff_exists.mp (hnode n (by omega) hbn h sc)
      rcases res1 with ⟨n1, h1⟩
      obtain ⟨res2, hres2⟩ := Option.isSome_iff_exists.mp (ihl (by omega) hbrest h1 sc)
      rcases res2 with ⟨rest1, h2⟩
      rw [visitNodes]
      simp only [hres1, hres2]
      simp
  exact ⟨hel, hcondl, hcond, hnode, hnodesl⟩

/-- Counterexample to C7 as stated: on a sibling list of 129 children the
discard-mask shift of `optimize_children` overflows the 128-bit mask (the
`1 << index` in the retain loop reaches index 128), so the pass aborts
rather than staying total — both directly and through
`transform_and_record_template`. -/
theorem optimize_children_overflow :
    optimize_children (List.replicate 129 (Node.Text "x")) ElementKind.Element = none ∧
    transform_and_record_template
      ⟨"html", List.replicate 129
        (Node.Element (.mk .Element ⟨"div", [], none⟩ [] 0 PatchHints.empty))⟩
      BindingsHelper.empty = none := by
  constructor
  · rfl
  · rfl

/-- C7 amended: the template transform terminates and never fails on any
well-formed tree whose sibling lists respect the 128-children discard-mask
limit of the implementation: `optimize_children` succeeds on every sibling
list of at most 128 children, and `transform_and_record_template` succeeds
whenever the root list and every sibling list in the tree have at most 128
entries. -/
theorem transform_total_within_limit :
    (∀ (cs : List Node) (k : ElementKind), cs.length ≤ 128 →
      (optimize_children cs k).isSome) ∧
    (∀ (t : SfcTemplateBlock) (h : BindingsHelper), t.roots.length ≤ 128 →
      Node.allElemsList boundedE t.roots = true →
      (transform_and_record_template t h).isSome) := by
  constructor
  · intro cs k hlen
    obtain ⟨cs', hcs'⟩ := optimize_children_isSome cs k hlen
    rw [hcs']
    rfl
  · intro t h hroots hb
    have hfil : (t.roots.filter Node.isElementNode).length ≤ 128 :=
      le_trans (List.length_filter_le _ _) hroots
    obtain ⟨roots2, hopt⟩ :=
      optimize_children_isSome (t.roots.filter Node.isElementNode) ElementKind.Element hfil
    have hb1 : ∀ n ∈ t.roots.filter Node.isElementNode, Node.allElems boundedE n = true := by
      intro n hn
      exact (Node.allElemsList_iff _ _).mp hb n (List.mem_of_mem_filter hn)
    have hb2 : Node.allElemsList boundedE roots2 = true :=
      optimize_children_allElems boundedE boundedE_dirInsensitive hopt hb1
    have hlen2 : roots2.length ≤ 128 :=
      le_trans (optimize_children_length_le hopt) hfil
    rw [transform_and_record_template]
    simp only [hopt]
    by_cases hgt : roots2.length > 1
    · rw [if_pos hgt]
      have hwrap : Node.allElemsList boundedE
          [Node.Element (.mk .Element ⟨"template", [], none⟩ roots2 0 PatchHints.empty)] = true := by
        simp [Node.allElemsList, Node.allElems, ElementNode.allElems, boundedE,
          ElementNode.children, hb2, hlen2]
      obtain ⟨res, hres⟩ := Option.isSome_iff_exists.mp
        (((visit_total (Node.listWeight
            [Node.Element (.mk .Element ⟨"template", [], none⟩ roots2 0 PatchHints.empty)])).2.2.2.2)
          _ le_rfl hwrap h 0)
      rcases res with ⟨roots4, h4⟩
      rw [hres]
      rfl
    · rw [if_neg hgt]
      obtain ⟨res, hres⟩ := Option.isSome_iff_exists.mp
        (((visit_total (Node.listWeight roots2)).2.2.2.2) roots2 le_rfl hb2 h 0)
      rcases res with ⟨roots4, h4⟩
      rw [hres]
      rfl

/-- Witness for C7 amended at concrete inputs: the empty sibling list is
optimized successfully, and a two-root template is transformed
successfully. -/
theorem transform_total_within_limit_witness :
    (optimize_children [] ElementKind.Element).isSome = true ∧
    (transform_and_record_template
      ⟨"html", [Node.Element (.mk .Element ⟨"div", [], none⟩ [] 0 PatchHints.empty),
        Node.Element (.mk .Element ⟨"p", [], none⟩ [] 0 PatchHints.empty)]⟩
      BindingsHelper.empty).isSome = true := by
  constructor
  · exact transform_total_within_limit.1 [] ElementKind.Element (by decide)
  · exact transform_total_within_limit.2
      ⟨"html", [Node.Element (.mk .Element ⟨"div", [], none⟩ [] 0 PatchHints.empty),
        Node.Element (.mk .Element ⟨"p", [], none⟩ [] 0 PatchHints.empty)]⟩
      BindingsHelper.empty (by decide) (by decide)

theorem foldl_and_eq {α : Type} (f : α → Bool) :
    ∀ (l : List α) (acc : Bool),
      l.foldl (fun a c => a && f c) acc = (acc && l.all f) := by
  intro l
  induction l with
  | nil => intro acc; simp
  | cons x xs ih =>
    intro acc
    rw [List.foldl_cons, ih, List.all_cons]
    cases acc <;> cases f x <;> simp

theorem foldl_or_eq {α : Type} (f : α → Bool) :
    ∀ (l : List α) (acc : Bool),
      l.foldl (fun a c => a || f c) acc = (acc || l.any f) := by
  intro l
  induction l with
  | nil => intro acc; simp
  | cons x xs ih =>
    intro acc
    rw [List.foldl_cons, ih, List.any_cons]
    cases acc <;> cases f x <;> simp

/-- The bits of the hint bitset that the attribute loop never touches. -/
theorem transformAttr_preserved (ic : Bool) (hints : PatchHints)
    (attr : AttributeOrBinding) :
    (transformAttr ic hints attr).1.flags.text = hints.flags.text ∧
    (transformAttr ic hints attr).1.flags.stableFragment = hints.flags.stableFragment ∧
    (transformAttr ic hints attr).1.flags.keyedFragment = hints.flags.keyedFragment ∧
    (transformAttr ic hints attr).1.flags.unkeyedFragment = hints.flags.unkeyedFragment := by
  rcases attr with ⟨name, value⟩ | vb | vo
  · exact ⟨rfl, rfl, rfl, rfl⟩
  · unfold transformAttr transform_expr
    rcases vb with ⟨arg, value⟩
    rcases arg with _ | sv
    · exact ⟨rfl, rfl, rfl, rfl⟩
    · rcases sv with s | ex
      · by_cases h1 : !value.isDynamic || hints.flags.fullProps
        · simp only [h1]
          simp
        · simp only [Bool.not_eq_true] at h1
          simp only [h1]
          simp only [Bool.false_eq_true, if_false]
          by_cases h2 : s == "key"
          · simp [h2]
          · simp only [h2, Bool.false_eq_true, if_false]
            by_cases h3 : ic
            · simp [h3]
            · simp only [h3, Bool.false_eq_true, if_false]
              by_cases h4 : s == "class"
              · simp [h4]
              · simp only [h4, Bool.false_eq_true, if_false]
                by_cases h5 : s == "style"
                · simp [h5]
                · simp [h5]
      · exact ⟨rfl, rfl, rfl, rfl⟩
  · unfold transformAttr
    rcases vo with ⟨ev, handler⟩
    rcases handler with _ | hd
    · exact ⟨rfl, rfl, rfl, rfl⟩
    · exact ⟨rfl, rfl, rfl, rfl⟩

theorem transformAttrs_preserved (ic : Bool) :
    ∀ (attrs : List AttributeOrBinding) (hints : PatchHints),
      (transformAttrs ic hints attrs).1.flags.text = hints.flags.text ∧
      (transformAttrs ic hints attrs).1.flags.stableFragment = hints.flags.stableFragment ∧
      (transformAttrs ic hints attrs).1.flags.keyedFragment = hints.flags.keyedFragment ∧
      (transformAttrs ic hints attrs).1.flags.unkeyedFragment = hints.flags.unkeyedFragment := by
  intro attrs
  induction attrs with
  | nil => intro hints; exact ⟨rfl, rfl, rfl, rfl⟩
  | cons a rest ih =>
    intro hints
    have h1 := transformAttr_preserved ic hints a
    have h2 := ih (transformAttr ic hints a).1
    rw [transformAttrs]
    simp only []
    exact ⟨h2.1.trans h1.1, h2.2.1.trans h1.2.1, h2.2.2.1.trans h1.2.2.1,
      h2.2.2.2.trans h1.2.2.2⟩

/-- The `Text`-flag epilogue never touches the fragment bits. -/
theorem applyTextFlag_preserved (k : ElementKind) (opt vis : List Node)
    (flags : PatchFlags) :
    (applyTextFlag k opt vis flags).stableFragment = flags.stableFragment ∧
    (applyTextFlag k opt vis flags).keyedFragment = flags.keyedFragment ∧
    (applyTextFlag k opt vis flags).unkeyedFragment = flags.unkeyedFragment := by
  unfold applyTextFlag
  by_cases hc : (vis.foldl (fun acc c => acc && !(isElementOrConditionalSeq c))
      (k.isElement && !opt.isEmpty) && vis.foldl (fun acc c => acc || interpolationPatchFlag c) false)
  · simp [hc]
  · simp [hc]

/-- The `Text` bit of the epilogue when the incoming bit is clear. -/
theorem applyTextFlag_text (k : ElementKind) (opt vis : List Node) (flags : PatchFlags)
    (hin : flags.text = false) :
    (applyTextFlag k opt vis flags).text =
      ((k.isElement && !opt.isEmpty) && (vis.all fun c => !(isElementOrConditionalSeq c)) &&
        vis.any interpolationPatchFlag) := by
  unfold applyTextFlag
  rw [foldl_and_eq, foldl_or_eq]
  simp only [Bool.false_or]
  rcases hA : (k.isElement && !opt.isEmpty) with _ | _ <;>
    rcases hB : (vis.all fun c => !(isElementOrConditionalSeq c)) with _ | _ <;>
    rcases hC : vis.any interpolationPatchFlag with _ | _ <;>
    simp [hA, hB, hC, hin]

theorem visitNodes_nil (h : BindingsHelper) (sc : Nat) :
    visitNodes h sc [] = some ([], h) := by
  rw [visitNodes]

theorem visitNodes_cons (h : BindingsHelper) (sc : Nat) (n : Node) (rest : List Node) :
    visitNodes h sc (n :: rest) =
      (visitNode h sc n).bind fun r =>
        (visitNodes r.2 sc rest).map fun r2 => (r.1 :: r2.1, r2.2) := by
  rw [visitNodes]
  rcases visitNode h sc n with _ | ⟨n1, h1⟩
  · rfl
  · dsimp only
    simp only [Option.some_bind]
    rcases visitNodes h1 sc rest with _ | ⟨rest1, h2⟩ <;> rfl

theorem visitNodes_length :
    ∀ (l : List Node) (h : BindingsHelper) (sc : Nat) (l' : List Node) (h' : BindingsHelper),
      visitNodes h sc l = some (l', h') → l'.length = l.length := by
  intro l
  induction l with
  | nil =>
    intro h sc l' h' hv
    rw [visitNodes_nil] at hv
    simp at hv
    simp [hv.1.symm]
  | cons n rest ih =>
    intro h sc l' h' hv
    rw [visitNodes_cons] at hv
    rcases h1 : visitNode h sc n with _ | ⟨n1, hh1⟩ <;> rw [h1] at hv
    · exact Option.noConfusion hv
    · simp only [Option.some_bind] at hv
      rcases h2 : visitNodes hh1 sc rest with _ | ⟨rest1, hh2⟩ <;> rw [h2] at hv
      · exact Option.noConfusion hv
      · simp only [Option.map_some', Option.some.injEq, Prod.mk.injEq] at hv
        have hlen := ih hh1 sc rest1 hh2 h2
        rw [← hv.1]
        simp [hlen]

theorem ElementKind.isElement_iff (k : ElementKind) :
    k.isElement = true ↔ k = ElementKind.Element := by
  cases k <;> simp [ElementKind.isElement]

theorem ElementNode.kind_mk (k st c s p) : (ElementNode.mk k st c s p).kind = k := rfl

theorem ElementNode.children_mk (k st c s p) :
    (ElementNode.mk k st c s p).children = c := rfl

theorem ElementNode.patch_hints_mk (k st c s p) :
    (ElementNode.mk k st c s p).patch_hints = p := rfl

/-- Inversion of a successful element visit into its components. -/
theorem visitElementNode_inv {h : BindingsHelper} {sc : Nat} {e e' : ElementNode}
    {h' : BindingsHelper} (hv : visitElementNode h sc e = some (e', h')) :
    ∃ opt cs1,
      optimize_children e.children (recognize_element_kind e.starting_tag) = some opt ∧
      visitNodes (processScopeDirectives h sc e.starting_tag).1
        (processScopeDirectives h sc e.starting_tag).2.1 opt = some (cs1, h') ∧
      e' = ElementNode.mk (recognize_element_kind e.starting_tag)
        ⟨e.starting_tag.tag_name,
         (transformAttrs (recognize_element_kind e.starting_tag).isComponent
           e.patch_hints e.starting_tag.attributes).2,
         (processScopeDirectives h sc e.starting_tag).2.2⟩
        cs1 (processScopeDirectives h sc e.starting_tag).2.1
        ⟨applyTextFlag (recognize_element_kind e.starting_tag) opt cs1
           (transformAttrs (recognize_element_kind e.starting_tag).isComponent
             e.patch_hints e.starting_tag.attributes).1.flags,
         (transformAttrs (recognize_element_kind e.starting_tag).isComponent
           e.patch_hints e.starting_tag.attributes).1.props⟩ := by
  rw [visitElementNode_unfold] at hv
  rcases hopt : optimize_children e.children (recognize_element_kind e.starting_tag)
    with _ | opt <;> rw [hopt] at hv
  · exact Option.noConfusion hv
  · simp only [Option.some_bind] at hv
    rcases hn : visitNodes (processScopeDirectives h sc e.starting_tag).1
        (processScopeDirectives h sc e.starting_tag).2.1 opt with _ | res <;> rw [hn] at hv
    · exact Option.noConfusion hv
    · rcases res with ⟨cs1, h2⟩
      simp only [Option.map_some', Option.some.injEq, Prod.mk.injEq] at hv
      exact ⟨opt, cs1, rfl, by rw [hn, hv.2], hv.1.symm⟩

/-- C4: Text patch flag.  For every visited element, the `Text` flag ends up
set exactly when the element is a plain `Element`, its (optimized, visited)
child list is non-empty, none of those children is an `Element` or
`ConditionalSeq` node, and at least one `Interpolation` child carries the
dynamic patch flag set by the expression resolver. -/
theorem text_patch_flag (h : BindingsHelper) (sc : Nat) (e e' : ElementNode)
    (h' : BindingsHelper) (htext : e.patch_hints.flags.text = false)
    (hvisit : visitElementNode h sc e = some (e', h')) :
    e'.patch_hints.flags.text = true ↔
      (e'.kind = ElementKind.Element ∧ e'.children ≠ [] ∧
       (∀ c ∈ e'.children, isElementOrConditionalSeq c = false) ∧
       (∃ c ∈ e'.children, interpolationPatchFlag c = true)) := by
  obtain ⟨opt, cs1, hopt, hnodes, he'⟩ := visitElementNode_inv hvisit
  have hlen : cs1.length = opt.length := visitNodes_length opt _ _ cs1 _ hnodes
  have hin : (transformAttrs (recognize_element_kind e.starting_tag).isComponent
      e.patch_hints e.starting_tag.attributes).1.flags.text = false := by
    rw [(transformAttrs_preserved (recognize_element_kind e.starting_tag).isComponent
      e.starting_tag.attributes e.patch_hints).1, htext]
  subst he'
  simp only [ElementNode.patch_hints_mk, ElementNode.kind_mk, ElementNode.children_mk]
  rw [applyTextFlag_text _ _ _ _ hin]
  simp only [Bool.and_eq_true, List.all_eq_true, List.any_eq_true, Bool.not_eq_true']
  constructor
  · rintro ⟨⟨⟨hke, hne⟩, hall⟩, hany⟩
    refine ⟨(ElementKind.isElement_iff _).mp hke, ?_, hall, hany⟩
    intro hnil
    rw [hnil] at hlen
    rcases opt with _ | ⟨o, os⟩
    · simp at hne
    · simp at hlen
  · rintro ⟨hk, hne, hall, hany⟩
    refine ⟨⟨⟨(ElementKind.isElement_iff _).mpr hk, ?_⟩, hall⟩, hany⟩
    rcases opt with _ | ⟨o, os⟩
    · rcases cs1 with _ | ⟨c, cs⟩
      · exact absurd rfl hne
      · simp at hlen
    · simp

/-- Witness for C4 at a concrete element: `<p>{{ msg }}</p>` with a dynamic
interpolation gets the Text flag after the visit. -/
theorem text_patch_flag_witness :
    ∃ (e' : ElementNode) (h' : BindingsHelper),
      visitElementNode BindingsHelper.empty 0
        (.mk .Element ⟨"p", [], none⟩
          [Node.Interpolation ⟨⟨"msg", true⟩, 0, false⟩] 0 PatchHints.empty) =
        some (e', h') ∧
      e'.patch_hints.flags.text = true := by
  have hv : visitElementNode BindingsHelper.empty 0
      (.mk .Element ⟨"p", [], none⟩
        [Node.Interpolation ⟨⟨"msg", true⟩, 0, false⟩] 0 PatchHints.empty) =
      some (.mk .Element ⟨"p", [], none⟩
        [Node.Interpolation ⟨⟨"msg", true⟩, 0, true⟩] 0
        ⟨⟨true, false, false, false, false, false, false, false⟩, []⟩,
        BindingsHelper.empty) := by
    rw [visitElementNode_unfold,
      show optimize_children
        (ElementNode.mk .Element ⟨"p", [], none⟩
          [Node.Interpolation ⟨⟨"msg", true⟩, 0, false⟩] 0 PatchHints.empty).children
        (recognize_element_kind (ElementNode.mk .Element ⟨"p", [], none⟩
          [Node.Interpolation ⟨⟨"msg", true⟩, 0, false⟩] 0 PatchHints.empty).starting_tag) =
        some [Node.Interpolation ⟨⟨"msg", true⟩, 0, false⟩] from rfl]
    simp only [Option.some_bind]
    rw [visitNodes_cons, visitNode_interpolation]
    simp only [Option.some_bind]
    rw [visitNodes_nil]
    rfl
  refine ⟨_, _, hv, ?_⟩
  rw [text_patch_flag _ _ _ _ _ (by rfl) hv]
  refine ⟨rfl, by simp [ElementNode.children_mk], ?_, ?_⟩
  · intro c hc
    simp only [ElementNode.children_mk, List.mem_singleton] at hc
    subst hc
    rfl
  · refine ⟨Node.Interpolation ⟨⟨"msg", true⟩, 0, true⟩, ?_, rfl⟩
    simp [ElementNode.children_mk]

theorem ElementNode.starting_tag_mk (k st c s p) :
    (ElementNode.mk k st c s p).starting_tag = st := rfl

/-- The directive part of the `v-for` handling, computed: exactly one
fragment flag is ORed in, chosen by the dynamicity of the iterable and the
presence of a `key` attribute. -/
theorem processVFor_snd (h : BindingsHelper) (s : Nat)
    (attrs : List AttributeOrBinding) (vf : VForDirective) :
    (processVFor h s attrs vf).2 =
      if !vf.iterable.isDynamic then
        { vf with patch_flags := { vf.patch_flags with stableFragment := true } }
      else if attrs.any fun attr => check_attribute_name attr "key" then
        { vf with patch_flags := { vf.patch_flags with keyedFragment := true } }
      else
        { vf with patch_flags := { vf.patch_flags with unkeyedFragment := true } } := rfl

/-- Passing through the scoping-directive prologue, an element's `v-for`
directive survives with exactly the fragment flag dictated by its iterable
and the `key` attribute. -/
theorem processScopeDirectives_v_for (h : BindingsHelper) (sc : Nat)
    (st : StartingTag) (d : VueDirectives) (vf : VForDirective)
    (hd : st.directives = some d) (hvf : d.v_for = some vf) :
    ∃ d' vf', (processScopeDirectives h sc st).2.2 = some d' ∧
      d'.v_for = some vf' ∧
      vf'.patch_flags =
        (if vf.iterable.isDynamic = false then
          { vf.patch_flags with stableFragment := true }
        else if st.attributes.any fun attr => check_attribute_name attr "key" then
          { vf.patch_flags with keyedFragment := true }
        else { vf.patch_flags with unkeyedFragment := true }) := by
  rcases st with ⟨tag, attrs, dirs⟩
  dsimp only at hd
  subst hd
  unfold processScopeDirectives
  simp only [hvf, Option.isSome_some, Bool.true_or, if_true]
  refine ⟨_, _, rfl, rfl, ?_⟩
  rw [processVFor_snd]
  by_cases hdyn : vf.iterable.isDynamic <;>
    by_cases hk : (attrs.any fun attr => check_attribute_name attr "key") <;>
    simp [hdyn, hk]

/-- C3: v-for fragment flag selection.  For every visited element bearing a
pristine `v-for` directive (no fragment flag pre-set) on an element whose
own hints carry no fragment flag, the surviving directive holds exactly one
fragment flag: `StableFragment` when the transformed iterable is
non-dynamic, otherwise `KeyedFragment`/`UnkeyedFragment` according to the
presence of a `key` attribute; the element's own patch hints keep all
fragment flags clear. -/
theorem v_for_fragment_flags (h : BindingsHelper) (sc : Nat) (e e' : ElementNode)
    (h' : BindingsHelper) (d : VueDirectives) (vf : VForDirective)
    (hd : e.starting_tag.directives = some d) (hvf : d.v_for = some vf)
    (hvf0 : vf.patch_flags.stableFragment = false ∧
      vf.patch_flags.keyedFragment = false ∧ vf.patch_flags.unkeyedFragment = false)
    (hel0 : e.patch_hints.flags.stableFragment = false ∧
      e.patch_hints.flags.keyedFragment = false ∧
      e.patch_hints.flags.unkeyedFragment = false)
    (hvisit : visitElementNode h sc e = some (e', h')) :
    ∃ d' vf', e'.starting_tag.directives = some d' ∧ d'.v_for = some vf' ∧
      (vf.iterable.isDynamic = false →
        vf'.patch_flags.stableFragment = true ∧
        vf'.patch_flags.keyedFragment = false ∧
        vf'.patch_flags.unkeyedFragment = false) ∧
      (vf.iterable.isDynamic = true →
        (e.starting_tag.attributes.any fun attr => check_attribute_name attr "key") = true →
        vf'.patch_flags.stableFragment = false ∧
        vf'.patch_flags.keyedFragment = true ∧
        vf'.patch_flags.unkeyedFragment = false) ∧
      (vf.iterable.isDynamic = true →
        (e.starting_tag.attributes.any fun attr => check_attribute_name attr "key") = false →
        vf'.patch_flags.stableFragment = false ∧
        vf'.patch_flags.keyedFragment = false ∧
        vf'.patch_flags.unkeyedFragment = true) ∧
      e'.patch_hints.flags.stableFragment = false ∧
      e'.patch_hints.flags.keyedFragment = false ∧
      e'.patch_hints.flags.unkeyedFragment = false := by
  obtain ⟨opt, cs1, hopt, hnodes, he'⟩ := visitElementNode_inv hvisit
  obtain ⟨d', vf', hd', hvf', hflags⟩ :=
    processScopeDirectives_v_for h sc e.starting_tag d vf hd hvf
  subst he'
  refine ⟨d', vf', ?_, hvf', ?_, ?_, ?_, ?_, ?_, ?_⟩
  · rw [ElementNode.starting_tag_mk]
    exact hd'
  · intro hdyn
    rw [hflags]
    simp [hdyn, hvf0.2.1, hvf0.2.2]
  · intro hdyn hk
    rw [hflags]
    simp [hdyn, hk, hvf0.1, hvf0.2.2]
  · intro hdyn hk
    rw [hflags]
    simp [hdyn, hk, hvf0.1, hvf0.2.1]
  · rw [ElementNode.patch_hints_mk]
    exact ((applyTextFlag_preserved _ _ _ _).1.trans
      ((transformAttrs_preserved _ _ _).2.1)).trans hel0.1
  · rw [ElementNode.patch_hints_mk]
    exact ((applyTextFlag_preserved _ _ _ _).2.1.trans
      ((transformAttrs_preserved _ _ _).2.2.1)).trans hel0.2.1
  · rw [ElementNode.patch_hints_mk]
    exact ((applyTextFlag_preserved _ _ _ _).2.2.trans
      ((transformAttrs_preserved _ _ _).2.2.2)).trans hel0.2.2

/-- Witness for C3 at a concrete element: `<li v-for="i in 3">` (static
iterable) comes out of the visit with `StableFragment` set on the loop and
no fragment flag on the element itself. -/
theorem v_for_fragment_flags_witness :
    ∃ (e' : ElementNode) (h' : BindingsHelper) (d' : VueDirectives)
      (vf' : VForDirective),
      visitElementNode BindingsHelper.empty 0
        (.mk .Element ⟨"li", [],
          some { VueDirectives.empty with
                 v_for := some ⟨["i"], ⟨"3", false⟩, PatchFlags.empty⟩ }⟩
          [] 0 PatchHints.empty) = some (e', h') ∧
      e'.starting_tag.directives = some d' ∧ d'.v_for = some vf' ∧
      vf'.patch_flags.stableFragment = true ∧
      vf'.patch_flags.keyedFragment = false ∧
      vf'.patch_flags.unkeyedFragment = false ∧
      e'.patch_hints.flags.stableFragment = false := by
  have hv : visitElementNode BindingsHelper.empty 0
      (.mk .Element ⟨"li", [],
        some { VueDirectives.empty with
               v_for := some ⟨["i"], ⟨"3", false⟩, PatchFlags.empty⟩ }⟩
        [] 0 PatchHints.empty) =
      some (.mk .Element ⟨"li", [],
        some { VueDirectives.empty with
               v_for := some ⟨["i"], ⟨"3", false⟩,
                 { PatchFlags.empty with stableFragment := true }⟩ }⟩
        [] 0 PatchHints.empty, ⟨[⟨["i"], 0⟩]⟩) := by
    rw [visitElementNode_unfold,
      show optimize_children
        (ElementNode.mk .Element ⟨"li", [],
          some { VueDirectives.empty with
                 v_for := some ⟨["i"], ⟨"3", false⟩, PatchFlags.empty⟩ }⟩
          [] 0 PatchHints.empty).children
        (recognize_element_kind (ElementNode.mk .Element ⟨"li", [],
          some { VueDirectives.empty with
                 v_for := some ⟨["i"], ⟨"3", false⟩, PatchFlags.empty⟩ }⟩
          [] 0 PatchHints.empty).starting_tag) = some [] from rfl]
    simp only [Option.some_bind]
    rw [visitNodes_nil]
    rfl
  obtain ⟨d', vf', h1, h2, h3, _, _, h4, _, _⟩ :=
    v_for_fragment_flags _ _ _ _ _ _ _ (by rfl) (by rfl)
      ⟨by rfl, by rfl, by rfl⟩ ⟨by rfl, by rfl, by rfl⟩ hv
  exact ⟨_, _, d', vf', hv, h1, h2, (h3 rfl).1, (h3 rfl).2.1, (h3 rfl).2.2, h4⟩

/-- Exactly one of the three fragment flags is set. -/
def exactlyOneFragment (f : PatchFlags) : Bool :=
  (f.stableFragment && !f.keyedFragment && !f.unkeyedFragment) ||
  (!f.stableFragment && f.keyedFragment && !f.unkeyedFragment) ||
  (!f.stableFragment && !f.keyedFragment && f.unkeyedFragment)

/-- The FullProps half of claim C1 on a hint block: when `FullProps` is set,
neither `Class` nor `Style` is set and the dynamic-prop-name list is empty. -/
def fullPropsExclusiveHints (p : PatchHints) : Bool :=
  !p.flags.fullProps || (!p.flags.cls && !p.flags.style && p.props.isEmpty)

/-- The v-for half of claim C1 on a directive block: the `v-for` directive
(if any) carries exactly one fragment flag. -/
def vForOneFragmentDirs : Option VueDirectives → Bool
  | some d =>
    match d.v_for with
    | some vf => exactlyOneFragment vf.patch_flags
    | none => true
  | none => true

/-- A directive block whose `v-for` (if any) carries no fragment flag yet. -/
def vForPristineDirs : Option VueDirectives → Bool
  | some d =>
    match d.v_for with
    | some vf => !vf.patch_flags.stableFragment && !vf.patch_flags.keyedFragment &&
        !vf.patch_flags.unkeyedFragment
    | none => true
  | none => true

/-- The pre-transform side condition of claim C1, satisfied by parser
output: the hint block already satisfies FullProps exclusivity and the
`v-for` carries no fragment flag. -/
def pristineC1 : ElementNode → Bool := fun e =>
  fullPropsExclusiveHints e.patch_hints && vForPristineDirs e.starting_tag.directives

/-- The C1 invariant on a single element. -/
def flagInvariantE : ElementNode → Bool := fun e =>
  fullPropsExclusiveHints e.patch_hints && vForOneFragmentDirs e.starting_tag.directives

theorem pristineC1_dirInsensitive : DirInsensitive pristineC1 := by
  intro e d hd
  rcases e with ⟨k, st, ch, sc, ph⟩
  rcases st with ⟨tag, attrs, dirs⟩
  dsimp only [ElementNode.starting_tag] at hd
  subst hd
  constructor <;> rfl

/-- One attribute-loop step preserves the FullProps exclusivity. -/
theorem transformAttr_fullProps (ic : Bool) (hints : PatchHints)
    (a : AttributeOrBinding) (hI : fullPropsExclusiveHints hints = true) :
    fullPropsExclusiveHints (transformAttr ic hints a).1 = true := by
  rcases a with ⟨name, value⟩ | ⟨⟨arg, value⟩⟩ | ⟨⟨ev, handler⟩⟩
  · exact hI
  · rcases arg with _ | s
    · simp [transformAttr, fullPropsExclusiveHints]
    · rcases s with s | ex
      · simp only [transformAttr, transform_expr]
        split_ifs <;> simp_all [fullPropsExclusiveHints]
      · simp [transformAttr, fullPropsExclusiveHints]
  · rcases handler with _ | hdl
    · exact hI
    · exact hI

/-- The attribute loop preserves the FullProps exclusivity. -/
theorem transformAttrs_fullProps (ic : Bool) :
    ∀ (attrs : List AttributeOrBinding) (hints : PatchHints),
      fullPropsExclusiveHints hints = true →
      fullPropsExclusiveHints (transformAttrs ic hints attrs).1 = true := by
  intro attrs
  induction attrs with
  | nil => intro hints h; exact h
  | cons a rest ih =>
    intro hints h
    rw [transformAttrs]
    exact ih (transformAttr ic hints a).1 (transformAttr_fullProps ic hints a h)

/-- The Text-flag epilogue never touches `FullProps`, `Class` or `Style`. -/
theorem applyTextFlag_pcs (k : ElementKind) (opt vis : List Node)
    (flags : PatchFlags) :
    (applyTextFlag k opt vis flags).fullProps = flags.fullProps ∧
    (applyTextFlag k opt vis flags).cls = flags.cls ∧
    (applyTextFlag k opt vis flags).style = flags.style := by
  unfold applyTextFlag
  by_cases hc : (vis.foldl (fun acc c => acc && !(isElementOrConditionalSeq c))
      (k.isElement && !opt.isEmpty) &&
      vis.foldl (fun acc c => acc || interpolationPatchFlag c) false)
  · simp [hc]
  · simp [hc]

theorem fullPropsExclusiveHints_applyText (k : ElementKind) (opt vis : List Node)
    (T : PatchHints) (h : fullPropsExclusiveHints T = true) :
    fullPropsExclusiveHints ⟨applyTextFlag k opt vis T.flags, T.props⟩ = true := by
  have hp := applyTextFlag_pcs k opt vis T.flags
  show (!(applyTextFlag k opt vis T.flags).fullProps ||
    (!(applyTextFlag k opt vis T.flags).cls && !(applyTextFlag k opt vis T.flags).style &&
      T.props.isEmpty)) = true
  rw [hp.1, hp.2.1, hp.2.2]
  exact h

/-- The scoping-directive prologue turns a pristine `v-for` into one with
exactly one fragment flag (and leaves absent `v-for`s absent). -/
theorem processScopeDirectives_vForOne (h : BindingsHelper) (sc : Nat)
    (st : StartingTag) (hp : vForPristineDirs st.directives = true) :
    vForOneFragmentDirs (processScopeDirectives h sc st).2.2 = true := by
  rcases st with ⟨tag, attrs, dirs⟩
  rcases dirs with _ | d
  · rfl
  · rcases hvf : d.v_for with _ | vf
    · rcases d with ⟨vif, veif, vel, vfor, vslot, vhtml, vmemo, vshow, vtext⟩
      simp only [] at hvf
      subst hvf
      rfl
    · obtain ⟨d', vf', heq, hvf', hflags⟩ :=
        processScopeDirectives_v_for h sc ⟨tag, attrs, some d⟩ d vf rfl hvf
      rw [show (processScopeDirectives h sc ⟨tag, attrs, some d⟩).2.2 = some d' from heq]
      have hred : vForOneFragmentDirs (some d') = exactlyOneFragment vf'.patch_flags := by
        show (match d'.v_for with
          | some vf0 => exactlyOneFragment vf0.patch_flags
          | none => true) = exactlyOneFragment vf'.patch_flags
        rw [hvf']
      rw [hred, hflags]
      have hp2 : (match d.v_for with
        | some vf0 => !vf0.patch_flags.stableFragment && !vf0.patch_flags.keyedFragment &&
            !vf0.patch_flags.unkeyedFragment
        | none => true) = true := hp
      simp only [hvf] at hp2
      simp only [Bool.and_eq_true, Bool.not_eq_true'] at hp2
      obtain ⟨⟨hs, hk⟩, hu⟩ := hp2
      split_ifs <;> simp [exactlyOneFragment, hs, hk, hu]

theorem visitConditionals_nil (h : BindingsHelper) (sc : Nat) :
    visitConditionals h sc [] = some ([], h) := by
  rw [visitConditionals]

theorem visitConditionals_cons (h : BindingsHelper) (sc : Nat) (c : Conditional)
    (rest : List Conditional) :
    visitConditionals h sc (c :: rest) =
      (visitElementNode h sc c.node).bind fun r =>
        (visitConditionals r.2 sc rest).map fun r2 =>
          (Conditional.mk (transform_expr c.condition sc).1 r.1 :: r2.1, r2.2) := by
  rw [visitConditionals]
  rcases visitElementNode h sc c.node with _ | ⟨e1, h1⟩
  · rfl
  · dsimp only
    simp only [Option.some_bind]
    rcases visitConditionals h1 sc rest with _ | ⟨r2, h2⟩ <;> rfl

/-- Non-dependent unfolding of `visitConditionalNode`. -/
theorem visitConditionalNode_unfold (h : BindingsHelper) (sc : Nat)
    (c : ConditionalNodeSequence) :
    visitConditionalNode h sc c =
      (visitElementNode h sc c.if_node.node).bind fun r1 =>
        (visitConditionals r1.2 sc c.else_if_nodes).bind fun r2 =>
          match c.else_node with
          | none =>
            some (.mk (.mk (transform_expr c.if_node.condition sc).1 r1.1) r2.1 none, r2.2)
          | some el =>
            (visitElementNode r2.2 sc el).map fun r3 =>
              (.mk (.mk (transform_expr c.if_node.condition sc).1 r1.1) r2.1 (some r3.1),
                r3.2) := by
  rw [visitConditionalNode]
  split
  · rename_i heq
    rw [heq]
    rfl
  · rename_i ifEl1 h1 heq
    rw [heq]
    simp only [Option.some_bind]
    split
    · rename_i heq2
      rw [heq2]
      rfl
    · rename_i elifs1 h2 heq2
      rw [heq2]
      simp only [Option.some_bind]
      split
      · rename_i hels
        rw [hels]
      · rename_i el hels
        rw [hels]
        dsimp only
        rcases hv3 : visitElementNode h2 sc el with _ | ⟨el1, h3⟩ <;> rfl

/-- The C1 invariant holds of every element of the visitor's output when
every element of the input is pristine (strong induction on subtree
weight, mirroring the termination argument). -/
theorem visit_flagInv : ∀ W : Nat,
    (∀ e : ElementNode, e.weight ≤ W → ElementNode.allElems pristineC1 e = true →
      ∀ h sc e' h', visitElementNode h sc e = some (e', h') →
        ElementNode.allElems flagInvariantE e' = true) ∧
    (∀ l : List Conditional, Conditional.listWeight l ≤ W →
      Conditional.allElemsList pristineC1 l = true →
      ∀ h sc l' h', visitConditionals h sc l = some (l', h') →
        Conditional.allElemsList flagInvariantE l' = true) ∧
    (∀ c : ConditionalNodeSequence, c.weight ≤ W →
      ConditionalNodeSequence.allElems pristineC1 c = true →
      ∀ h sc c' h', visitConditionalNode h sc c = some (c', h') →
        ConditionalNodeSequence.allElems flagInvariantE c' = true) ∧
    (∀ n : Node, n.weight ≤ W → Node.allElems pristineC1 n = true →
      ∀ h sc n' h', visitNode h sc n = some (n', h') →
        Node.allElems flagInvariantE n' = true) ∧
    (∀ l : List Node, Node.listWeight l ≤ W → Node.allElemsList pristineC1 l = true →
      ∀ h sc l' h', visitNodes h sc l = some (l', h') →
        Node.allElemsList flagInvariantE l' = true) := by
  intro W
  induction W using Nat.strong_induction_on with
  | _ W ih =>
  have hel : ∀ e : ElementNode, e.weight ≤ W → ElementNode.allElems pristineC1 e = true →
      ∀ h sc e' h', visitElementNode h sc e = some (e', h') →
        ElementNode.allElems flagInvariantE e' = true := by
    intro e hw hb h sc e' h' hvis
    obtain ⟨opt, cs1, hopt, hnodes, he'⟩ := visitElementNode_inv hvis
    have hbE := Bool.and_eq_true_iff.mp ((ElementNode.allElems_def pristineC1 e) ▸ hb)
    have hb1 := Bool.and_eq_true_iff.mp
      (show (fullPropsExclusiveHints e.patch_hints &&
          vForPristineDirs e.starting_tag.directives) = true from hbE.1)
    have hoptw : Node.listWeight opt ≤ Node.listWeight e.children :=
      optimize_children_weight hopt
    have hwe := e.weight_eq
    have hWlt : Node.listWeight opt < W := by omega
    have hoptb : Node.allElemsList pristineC1 opt = true :=
      optimize_children_allElems pristineC1 pristineC1_dirInsensitive hopt
        ((Node.allElemsList_iff _ _).mp hbE.2)
    have hcs1 : Node.allElemsList flagInvariantE cs1 = true :=
      ((ih (Node.listWeight opt) hWlt).2.2.2.2) opt le_rfl hoptb _ _ _ _ hnodes
    subst he'
    rw [ElementNode.allElems_def, ElementNode.children_mk]
    refine Bool.and_eq_true_iff.mpr ⟨?_, hcs1⟩
    unfold flagInvariantE
    rw [ElementNode.patch_hints_mk, ElementNode.starting_tag_mk]
    refine Bool.and_eq_true_iff.mpr ⟨?_, ?_⟩
    · exact fullPropsExclusiveHints_applyText _ opt cs1 _
        (transformAttrs_fullProps _ _ _ hb1.1)
    · exact processScopeDirectives_vForOne h sc e.starting_tag hb1.2
  have hcondl : ∀ l : List Conditional, Conditional.listWeight l ≤ W →
      Conditional.allElemsList pristineC1 l = true →
      ∀ h sc l' h', visitConditionals h sc l = some (l', h') →
        Conditional.allElemsList flagInvariantE l' = true := by
    intro l
    induction l with
    | nil =>
      intro _ _ h sc l' h' hvis
      rw [visitConditionals_nil] at hvis
      simp only [Option.some.injEq, Prod.mk.injEq] at hvis
      rw [← hvis.1]
      rfl
    | cons c rest ihl =>
      intro hwl hbl h sc l' h' hvis
      rcases c with ⟨ce, ne⟩
      simp only [Conditional.allElemsList, Conditional.allElems] at hbl
      obtain ⟨hbne, hbrest⟩ := Bool.and_eq_true_iff.mp hbl
      have hwc : ne.weight + Conditional.listWeight rest ≤ W := by
        simpa [Conditional.listWeight, Conditional.weight] using hwl
      rw [visitConditionals_cons] at hvis
      simp only [Conditional.node, Conditional.condition] at hvis
      rcases h1 : visitElementNode h sc ne with _ | ⟨el1, hh1⟩ <;> rw [h1] at hvis
      · exact Option.noConfusion hvis
      simp only [Option.some_bind] at hvis
      rcases h2 : visitConditionals hh1 sc rest with _ | ⟨rest1, hh2⟩ <;> rw [h2] at hvis
      · exact Option.noConfusion hvis
      simp only [Option.map_some', Option.some.injEq, Prod.mk.injEq] at hvis
      rw [← hvis.1]
      simp only [Conditional.allElemsList, Conditional.allElems]
      refine Bool.and_eq_true_iff.mpr ⟨?_, ?_⟩
      · exact hel ne (by omega) hbne h sc el1 hh1 h1
      · exact ihl (by omega) hbrest hh1 sc rest1 hh2 h2
  have hcond : ∀ c : ConditionalNodeSequence, c.weight ≤ W →
      ConditionalNodeSequence.allElems pristineC1 c = true →
      ∀ h sc c' h', visitConditionalNode h sc c = some (c', h') →
        ConditionalNodeSequence.allElems flagInvariantE c' = true := by
    intro c hw hb h sc c' h' hvis
    rcases c with ⟨⟨ce, ne⟩, elifs, els⟩
    rw [visitConditionalNode_unfold] at hvis
    simp only [ConditionalNodeSequence.if_node, ConditionalNodeSequence.else_if_nodes,
      ConditionalNodeSequence.else_node, Conditional.node, Conditional.condition] at hvis
    rcases h1 : visitElementNode h sc ne with _ | ⟨el1, hh1⟩ <;> rw [h1] at hvis
    · exact Option.noConfusion hvis
    simp only [Option.some_bind] at hvis
    rcases h2 : visitConditionals hh1 sc elifs with _ | ⟨elifs1, hh2⟩ <;> rw [h2] at hvis
    · exact Option.noConfusion hvis
    simp only [Option.some_bind] at hvis
    rcases els with _ | el2
    · simp only [Option.some.injEq, Prod.mk.injEq] at hvis
      rw [← hvis.1]
      have hw2 : ne.weight + Conditional.listWeight elifs ≤ W := by
        simpa [ConditionalNodeSequence.weight, Conditional.weight] using hw
      simp only [ConditionalNodeSequence.allElems, Conditional.allElems] at hb
      simp only [Bool.and_true] at hb
      obtain ⟨hbne, hbelifs⟩ := Bool.and_eq_true_iff.mp hb
      simp only [ConditionalNodeSequence.allElems, Conditional.allElems, Bool.and_true]
      refine Bool.and_eq_true_iff.mpr ⟨?_, ?_⟩
      · exact hel ne (by omega) hbne h sc el1 hh1 h1
      · exact hcondl elifs (by omega) hbelifs hh1 sc elifs1 hh2 h2
    · dsimp only at hvis
      rcases h3 : visitElementNode hh2 sc el2 with _ | ⟨el3, hh3⟩ <;> rw [h3] at hvis
      · exact Option.noConfusion hvis
      simp only [Option.map_some', Option.some.injEq, Prod.mk.injEq] at hvis
      rw [← hvis.1]
      have hw2 : ne.weight + Conditional.listWeight elifs + el2.weight ≤ W := by
        simpa [ConditionalNodeSequence.weight, Conditional.weight] using hw
      simp only [ConditionalNodeSequence.allElems, Conditional.allElems] at hb
      obtain ⟨hbif, hbel2⟩ := Bool.and_eq_true_iff.mp hb
      obtain ⟨hbne, hbelifs⟩ := Bool.and_eq_true_iff.mp hbif
      simp only [ConditionalNodeSequence.allElems, Conditional.allElems]
      refine Bool.and_eq_true_iff.mpr ⟨Bool.and_eq_true_iff.mpr ⟨?_, ?_⟩, ?_⟩
      · exact hel ne (by omega) hbne h sc el1 hh1 h1
      · exact hcondl elifs (by omega) hbelifs hh1 sc elifs1 hh2 h2
      · exact hel el2 (by omega) hbel2 hh2 sc el3 hh3 h3
  have hnode : ∀ n : Node, n.weight ≤ W → Node.allElems pristineC1 n = true →
      ∀ h sc n' h', visitNode h sc n = some (n', h') →
        Node.allElems flagInvariantE n' = true := by
    intro n hw hb h sc n' h' hvis
    rcases n with e | str | str | i | c
    · rw [visitNode_element] at hvis
      rcases h1 : visitElementNode h sc e with _ | ⟨e1, hh1⟩ <;> rw [h1] at hvis
      · exact Option.noConfusion hvis
      simp only [Option.map_some', Option.some.injEq, Prod.mk.injEq] at hvis
      rw [← hvis.1]
      simp only [Node.allElems]
      exact hel e (by simpa [Node.weight] using hw) (by simpa [Node.allElems] using hb)
        h sc e1 hh1 h1
    · rw [visitNode_text] at hvis
      simp only [Option.some.injEq, Prod.mk.injEq] at hvis
      rw [← hvis.1]
      rfl
    · rw [visitNode_comment] at hvis
      simp only [Option.some.injEq, Prod.mk.injEq] at hvis
      rw [← hvis.1]
      rfl
    · rw [visitNode_interpolation] at hvis
      simp only [Option.some.injEq, Prod.mk.injEq] at hvis
      rw [← hvis.1]
      rfl
    · rw [visitNode_condseq] at hvis
      rcases h1 : visitConditionalNode h sc c with _ | ⟨c1, hh1⟩ <;> rw [h1] at hvis
      · exact Option.noConfusion hvis
      simp only [Option.map_some', Option.some.injEq, Prod.mk.injEq] at hvis
      rw [← hvis.1]
      simp only [Node.allElems]
      exact hcond c (by simpa [Node.weight] using hw) (by simpa [Node.allElems] using hb)
        h sc c1 hh1 h1
  have hnodesl : ∀ l : List Node, Node.listWeight l ≤ W →
      Node.allElemsList pristineC1 l = true →
      ∀ h sc l' h', visitNodes h sc l = some (l', h') →
        Node.allElemsList flagInvariantE l' = true := by
    intro l
    induction l with
    | nil =>
      intro _ _ h sc l' h' hvis
      rw [visitNodes_nil] at hvis
      simp only [Option.some.injEq, Prod.mk.injEq] at hvis
      rw [← hvis.1]
      rfl
    | cons n rest ihl =>
      intro hwl hbl h sc l' h' hvis
      simp only [Node.allElemsList] at hbl
      obtain ⟨hbn, hbrest⟩ := Bool.and_eq_true_iff.mp hbl
      have hwc : n.weight + Node.listWeight rest ≤ W := by
        simpa [Node.listWeight] using hwl
      rw [visitNodes_cons] at hvis
      rcases h1 : visitNode h sc n with _ | ⟨n1, hh1⟩ <;> rw [h1] at hvis
      · exact Option.noConfusion hvis
      simp only [Option.some_bind] at hvis
      rcases h2 : visitNodes hh1 sc rest with _ | ⟨rest1, hh2⟩ <;> rw [h2] at hvis
      · exact Option.noConfusion hvis
      simp only [Option.map_some', Option.some.injEq, Prod.mk.injEq] at hvis
      rw [← hvis.1]
      simp only [Node.allElemsList]
      refine Bool.and_eq_true_iff.mpr ⟨?_, ?_⟩
      · exact hnode n (by omega) hbn h sc n1 hh1 h1
      · exact ihl (by omega) hbrest hh1 sc rest1 hh2 h2
  exact ⟨hel, hcondl, hcond, hnode, hnodesl⟩

/-- C1: Flag exclusivity.  After the template transform, every element of
the output tree satisfies: if `FullProps` is set then neither `Class` nor
`Style` is set and the dynamic-prop-name list is empty; and every `v-for`
directive carries exactly one of `StableFragment`/`KeyedFragment`/
`UnkeyedFragment`.  The input tree is required to be pristine (parser
output): hint blocks already exclusive and `v-for` flags still clear. -/
theorem flag_exclusivity (t : SfcTemplateBlock) (h : BindingsHelper)
    (t' : SfcTemplateBlock) (h' : BindingsHelper)
    (hp : Node.allElemsList pristineC1 t.roots = true)
    (hv : transform_and_record_template t h = some (t', h')) :
    Node.allElemsList flagInvariantE t'.roots = true := by
  unfold transform_and_record_template at hv
  dsimp only at hv
  rcases hopt : optimize_children (t.roots.filter Node.isElementNode) ElementKind.Element
    with _ | roots2 <;> rw [hopt] at hv
  · exact Option.noConfusion hv
  dsimp only at hv
  have hfil : Node.allElemsList pristineC1 (t.roots.filter Node.isElementNode) = true := by
    rw [Node.allElemsList_iff] at hp ⊢
    intro n hn
    exact hp n (List.mem_of_mem_filter hn)
  have hopt2 : Node.allElemsList pristineC1 roots2 = true :=
    optimize_children_allElems pristineC1 pristineC1_dirInsensitive hopt
      ((Node.allElemsList_iff _ _).mp hfil)
  have hr3 : Node.allElemsList pristineC1 (if roots2.length > 1 then
      [Node.Element (.mk .Element ⟨"template", [], none⟩ roots2 0 PatchHints.empty)]
    else roots2) = true := by
    split_ifs with hlen
    · simp only [Node.allElemsList, Node.allElems, Bool.and_true]
      rw [ElementNode.allElems_def, ElementNode.children_mk]
      exact Bool.and_eq_true_iff.mpr ⟨rfl, hopt2⟩
    · exact hopt2
  rcases hn : visitNodes h 0 (if roots2.length > 1 then
      [Node.Element (.mk .Element ⟨"template", [], none⟩ roots2 0 PatchHints.empty)]
    else roots2) with _ | res <;> rw [hn] at hv
  · exact Option.noConfusion hv
  rcases res with ⟨roots4, h1⟩
  simp only [Option.some.injEq, Prod.mk.injEq] at hv
  have hout := (visit_flagInv (Node.listWeight (if roots2.length > 1 then
      [Node.Element (.mk .Element ⟨"template", [], none⟩ roots2 0 PatchHints.empty)]
    else roots2))).2.2.2.2 _ le_rfl hr3 h 0 roots4 h1 hn
  rw [← hv.1]
  exact hout

/-- Witness for C1 at a concrete template: one root `div` with a
dynamic-name `v-bind` (which sets `FullProps`) and a dynamic un-keyed
`v-for`; the transformed tree satisfies the invariant. -/
theorem flag_exclusivity_witness :
    ∃ (t' : SfcTemplateBlock) (h' : BindingsHelper),
      transform_and_record_template
        ⟨"html", [Node.Element (.mk .Element
          ⟨"div", [.VBind ⟨none, ⟨"obj", true⟩⟩],
           some { VueDirectives.empty with
                  v_for := some ⟨["i"], ⟨"items", true⟩, PatchFlags.empty⟩ }⟩
          [] 0 PatchHints.empty)]⟩ BindingsHelper.empty = some (t', h') ∧
      Node.allElemsList flagInvariantE t'.roots = true := by
  have hv : transform_and_record_template
      ⟨"html", [Node.Element (.mk .Element
        ⟨"div", [.VBind ⟨none, ⟨"obj", true⟩⟩],
         some { VueDirectives.empty with
                v_for := some ⟨["i"], ⟨"items", true⟩, PatchFlags.empty⟩ }⟩
        [] 0 PatchHints.empty)]⟩ BindingsHelper.empty =
      some (⟨"html", [Node.Element (.mk .Element
        ⟨"div", [.VBind ⟨none, ⟨"obj", true⟩⟩],
         some { VueDirectives.empty with
                v_for := some ⟨["i"], ⟨"items", true⟩,
                  { PatchFlags.empty with unkeyedFragment := true }⟩ }⟩
        [] 0 ⟨{ PatchFlags.empty with fullProps := true }, []⟩)]⟩,
        ⟨[⟨["i"], 0⟩]⟩) := by
    rw [show transform_and_record_template
        ⟨"html", [Node.Element (.mk .Element
          ⟨"div", [.VBind ⟨none, ⟨"obj", true⟩⟩],
           some { VueDirectives.empty with
                  v_for := some ⟨["i"], ⟨"items", true⟩, PatchFlags.empty⟩ }⟩
          [] 0 PatchHints.empty)]⟩ BindingsHelper.empty =
      (match visitNodes BindingsHelper.empty 0 [Node.Element (.mk .Element
          ⟨"div", [.VBind ⟨none, ⟨"obj", true⟩⟩],
           some { VueDirectives.empty with
                  v_for := some ⟨["i"], ⟨"items", true⟩, PatchFlags.empty⟩ }⟩
          [] 0 PatchHints.empty)] with
        | none => none
        | some (roots4, h1) => some (⟨"html", roots4⟩, h1)) from rfl]
    rw [visitNodes_cons, visitNode_element, visitElementNode_unfold,
      show optimize_children (ElementNode.mk .Element
          ⟨"div", [.VBind ⟨none, ⟨"obj", true⟩⟩],
           some { VueDirectives.empty with
                  v_for := some ⟨["i"], ⟨"items", true⟩, PatchFlags.empty⟩ }⟩
          [] 0 PatchHints.empty).children
        (recognize_element_kind (ElementNode.mk .Element
          ⟨"div", [.VBind ⟨none, ⟨"obj", true⟩⟩],
           some { VueDirectives.empty with
                  v_for := some ⟨["i"], ⟨"items", true⟩, PatchFlags.empty⟩ }⟩
          [] 0 PatchHints.empty).starting_tag) = some [] from rfl]
    simp only [Option.some_bind]
    rw [visitNodes_nil]
    simp only [Option.map_some', Option.some_bind]
    rw [visitNodes_nil]
    rfl
  refine ⟨_, _, hv, ?_⟩
  exact flag_exclusivity _ _ _ _ (by rfl) hv

theorem ElementNode.template_scope_mk (k st c s p) :
    (ElementNode.mk k st c s p).template_scope = s := rfl

/-- C9: Root normalization.  A successful run of
`transform_and_record_template` leaves at most one root; and whenever the
optimized element-root list still has more than one entry, the output root
is exactly the visited synthetic `template` element that wraps all of the
optimized roots as its children, in template scope 0. -/
theorem root_normalization (t : SfcTemplateBlock) (h : BindingsHelper)
    (t' : SfcTemplateBlock) (h' : BindingsHelper)
    (hv : transform_and_record_template t h = some (t', h')) :
    t'.roots.length ≤ 1 ∧
    (∀ roots2, optimize_children (t.roots.filter Node.isElementNode) ElementKind.Element =
        some roots2 → roots2.length > 1 →
      ∃ (e' : ElementNode) (h2 : BindingsHelper),
        visitElementNode h 0
          (.mk .Element ⟨"template", [], none⟩ roots2 0 PatchHints.empty) = some (e', h2) ∧
        t'.roots = [Node.Element e'] ∧ e'.template_scope = 0 ∧
        e'.starting_tag.tag_name = "template") := by
  unfold transform_and_record_template at hv
  dsimp only at hv
  rcases hopt : optimize_children (t.roots.filter Node.isElementNode) ElementKind.Element
    with _ | roots2 <;> rw [hopt] at hv
  · exact Option.noConfusion hv
  dsimp only at hv
  rcases hn : visitNodes h 0 (if roots2.length > 1 then
      [Node.Element (.mk .Element ⟨"template", [], none⟩ roots2 0 PatchHints.empty)]
    else roots2) with _ | res <;> rw [hn] at hv
  · exact Option.noConfusion hv
  rcases res with ⟨roots4, h1⟩
  simp only [Option.some.injEq, Prod.mk.injEq] at hv
  constructor
  · rw [← hv.1]
    show roots4.length ≤ 1
    have hlen := visitNodes_length _ _ _ _ _ hn
    by_cases hgt : roots2.length > 1
    · rw [if_pos hgt] at hlen
      simp at hlen
      omega
    · rw [if_neg hgt] at hlen
      omega
  · intro roots2' hopt' hgt
    injection hopt' with heq
    subst heq
    rw [if_pos hgt, visitNodes_cons, visitNode_element] at hn
    rcases hve : visitElementNode h 0
        (.mk .Element ⟨"template", [], none⟩ roots2 0 PatchHints.empty)
      with _ | ⟨e', h2⟩ <;> rw [hve] at hn
    · exact Option.noConfusion hn
    simp only [Option.map_some', Option.some_bind] at hn
    rw [visitNodes_nil] at hn
    simp only [Option.map_some', Option.some.injEq, Prod.mk.injEq] at hn
    refine ⟨e', h2, rfl, ?_, ?_, ?_⟩
    · rw [← hv.1]
      show roots4 = [Node.Element e']
      exact hn.1.symm
    · obtain ⟨opt, cs1, _, _, he'⟩ := visitElementNode_inv hve
      subst he'
      rfl
    · obtain ⟨opt, cs1, _, _, he'⟩ := visitElementNode_inv hve
      subst he'
      rfl

/-- Witness for C9 at a concrete template with two element roots: the
output has a single root, the visited synthetic `template` wrapper in
scope 0. -/
theorem root_normalization_witness :
    ∃ (t' : SfcTemplateBlock) (h' : BindingsHelper) (e' : ElementNode)
      (h2 : BindingsHelper),
      transform_and_record_template
        ⟨"html", [Node.Element (.mk .Element ⟨"div", [], none⟩ [] 0 PatchHints.empty),
          Node.Element (.mk .Element ⟨"p", [], none⟩ [] 0 PatchHints.empty)]⟩
        BindingsHelper.empty = some (t', h') ∧
      t'.roots.length ≤ 1 ∧
      visitElementNode BindingsHelper.empty 0
        (.mk .Element ⟨"template", [], none⟩
          [Node.Element (.mk .Element ⟨"div", [], none⟩ [] 0 PatchHints.empty),
           Node.Element (.mk .Element ⟨"p", [], none⟩ [] 0 PatchHints.empty)]
          0 PatchHints.empty) = some (e', h2) ∧
      t'.roots = [Node.Element e'] ∧ e'.template_scope = 0 ∧
      e'.starting_tag.tag_name = "template" := by
  have hv : transform_and_record_template
      ⟨"html", [Node.Element (.mk .Element ⟨"div", [], none⟩ [] 0 PatchHints.empty),
        Node.Element (.mk .Element ⟨"p", [], none⟩ [] 0 PatchHints.empty)]⟩
      BindingsHelper.empty =
      some (⟨"html", [Node.Element (.mk .Element ⟨"template", [], none⟩
        [Node.Element (.mk .Element ⟨"div", [], none⟩ [] 0 PatchHints.empty),
         Node.Element (.mk .Element ⟨"p", [], none⟩ [] 0 PatchHints.empty)]
        0 PatchHints.empty)]⟩, BindingsHelper.empty) := by
    rw [show transform_and_record_template
        ⟨"html", [Node.Element (.mk .Element ⟨"div", [], none⟩ [] 0 PatchHints.empty),
          Node.Element (.mk .Element ⟨"p", [], none⟩ [] 0 PatchHints.empty)]⟩
        BindingsHelper.empty =
      (match visitNodes BindingsHelper.empty 0
          [Node.Element (.mk .Element ⟨"template", [], none⟩
            [Node.Element (.mk .Element ⟨"div", [], none⟩ [] 0 PatchHints.empty),
             Node.Element (.mk .Element ⟨"p", [], none⟩ [] 0 PatchHints.empty)]
            0 PatchHints.empty)] with
        | none => none
        | some (roots4, h1) => some (⟨"html", roots4⟩, h1)) from rfl]
    rw [visitNodes_cons, visitNode_element, visitElementNode_unfold,
      show optimize_children (ElementNode.mk .Element ⟨"template", [], none⟩
          [Node.Element (.mk .Element ⟨"div", [], none⟩ [] 0 PatchHints.empty),
           Node.Element (.mk .Element ⟨"p", [], none⟩ [] 0 PatchHints.empty)]
          0 PatchHints.empty).children
        (recognize_element_kind (ElementNode.mk .Element ⟨"template", [], none⟩
          [Node.Element (.mk .Element ⟨"div", [], none⟩ [] 0 PatchHints.empty),
           Node.Element (.mk .Element ⟨"p", [], none⟩ [] 0 PatchHints.empty)]
          0 PatchHints.empty).starting_tag) =
        some [Node.Element (.mk .Element ⟨"div", [], none⟩ [] 0 PatchHints.empty),
          Node.Element (.mk .Element ⟨"p", [], none⟩ [] 0 PatchHints.empty)] from rfl]
    simp only [Option.some_bind]
    rw [visitNodes_cons, visitNode_element, visitElementNode_unfold,
      show optimize_children (ElementNode.mk .Element ⟨"div", [], none⟩ [] 0
          PatchHints.empty).children
        (recognize_element_kind (ElementNode.mk .Element ⟨"div", [], none⟩ [] 0
          PatchHints.empty).starting_tag) = some [] from rfl]
    simp only [Option.some_bind]
    rw [visitNodes_nil]
    simp only [Option.map_some', Option.some_bind]
    rw [visitNodes_cons, visitNode_element, visitElementNode_unfold,
      show optimize_children (ElementNode.mk .Element ⟨"p", [], none⟩ [] 0
          PatchHints.empty).children
        (recognize_element_kind (ElementNode.mk .Element ⟨"p", [], none⟩ [] 0
          PatchHints.empty).starting_tag) = some [] from rfl]
    simp only [Option.some_bind]
    rw [visitNodes_nil]
    simp only [Option.map_some', Option.some_bind]
    rw [visitNodes_nil]
    simp only [Option.map_some', Option.some_bind]
    rw [visitNodes_nil]
    rfl
  obtain ⟨hle, hpart⟩ := root_normalization _ _ _ _ hv
  obtain ⟨e', h2, hvis, hroots, hscope, htag⟩ := hpart
    [Node.Element (.mk .Element ⟨"div", [], none⟩ [] 0 PatchHints.empty),
     Node.Element (.mk .Element ⟨"p", [], none⟩ [] 0 PatchHints.empty)]
    (by rfl) (by decide)
  exact ⟨_, _, e', h2, hv, hle, hvis, hroots, hscope, htag⟩

/-- Modelled from the spec (section 8, end-to-end codegen examples): a
minimal JavaScript expression tree sufficient for the built-in creation
calls; the SWC AST used by the code generator is outside the analysed
sources. -/
inductive JsExpr where
  | Ident (name : String)
  | StrLit (s : String)
  | Raw (src : String)
  | Call (callee : JsExpr) (args : List JsExpr)
  | ObjectLit (props : List (String × JsExpr))
  | Arrow (body : List JsExpr)
deriving Repr

/-- Modelled from SWC's reserved-word tables used by `is_valid_ident`
(`utils/mod.rs`): the JavaScript reserved words (including strict-mode
ones), which may not appear as bare object keys. -/
def js_reserved_words : List String :=
  ["await", "break", "case", "catch", "class", "const", "continue",
   "debugger", "default", "delete", "do", "else", "enum", "export",
   "extends", "false", "finally", "for", "function", "if", "import", "in",
   "instanceof", "new", "null", "return", "super", "switch", "this",
   "throw", "true", "try", "typeof", "var", "void", "while", "with",
   "yield", "let", "static", "implements", "interface", "package",
   "private", "protected", "public"]

def isIdentStart (c : Char) : Bool := c.isAlpha || c == '_' || c == '$'

def isIdentContinue (c : Char) : Bool := c.isAlphanum || c == '_' || c == '$'

/-- `is_valid_ident` of `fervid_codegen/src/utils/mod.rs`: not a reserved
word, and a valid identifier start followed by valid continuations (the
character classes of SWC are modelled over ASCII). -/
def is_valid_ident (s : String) : Bool :=
  if js_reserved_words.contains s then false
  else match s.data with
    | [] => false
    | c :: cs => isIdentStart c && cs.all isIdentContinue

mutual

/-- A minified printer for `JsExpr`, mirroring the SWC emitter with
`minify = true` used by `test_utils::to_str`; object keys go through the
`str_to_propname` rule of `utils/mod.rs` (bare when a valid identifier,
quoted otherwise). -/
def JsExpr.emit : JsExpr → String
  | .Ident n => n
  | .StrLit s => "\"" ++ s ++ "\""
  | .Raw src => src
  | .Call callee args => callee.emit ++ "(" ++ JsExpr.emitArgs args ++ ")"
  | .ObjectLit props => "\x7b" ++ JsExpr.emitProps props ++ "\x7d"
  | .Arrow body => "()=>[" ++ JsExpr.emitArgs body ++ "]"

/-- Comma-separated argument list. -/
def JsExpr.emitArgs : List JsExpr → String
  | [] => ""
  | [x] => x.emit
  | x :: xs => x.emit ++ "," ++ JsExpr.emitArgs xs

/-- Comma-separated object properties. -/
def JsExpr.emitProps : List (String × JsExpr) → String
  | [] => ""
  | [p] => (if is_valid_ident p.1 then p.1 else "\"" ++ p.1 ++ "\"") ++ ":" ++ p.2.emit
  | p :: ps =>
    (if is_valid_ident p.1 then p.1 else "\"" ++ p.1 ++ "\"") ++ ":" ++ p.2.emit ++ "," ++
      JsExpr.emitProps ps

end

/-- Modelled from the spec: `generate_builtin_attrs` (outside the analysed
sources) — no argument for an empty attribute list, otherwise one object
literal holding every attribute in source order: a literal attribute as a
string value, a named binding as its expression. -/
def generate_builtin_attrs (attrs : List AttributeOrBinding) : Option JsExpr :=
  if attrs.isEmpty then none
  else some (.ObjectLit (attrs.filterMap fun a =>
    match a with
    | .RegularAttribute name value => some (name, .StrLit value)
    | .VBind d =>
      match d.argument with
      | some (.Str name) => some (name, .Raw d.value.src)
      | _ => none
    | _ => none))

/-- Modelled from the spec: the text-creation call of the generated
default slot. -/
def generate_text_vnode (s : String) : JsExpr :=
  .Call (.Ident "_createTextVNode") [.StrLit s]

/-- Modelled from the spec: `generate_builtin_slots` (outside the analysed
sources), restricted to text children as in the analysed tests — no slots
object for a childless element, otherwise one `default` slot closure
wrapped in the render-context helper plus the `_: 1` slot-stability
marker. -/
def generate_builtin_slots (e : ElementNode) : Option JsExpr :=
  if e.children.isEmpty then none
  else some (.ObjectLit
    [("default", .Call (.Ident "_withCtx")
        [.Arrow (e.children.filterMap fun c =>
          match c with
          | .Text s => some (generate_text_vnode s)
          | _ => none)]),
     ("_", .Raw "1")])

/-- Modelled from the spec: `generate_componentlike` (outside the analysed
sources) — the creation call takes the tag reference, then the attribute
object (or `null` when only slots are present), then the slots object. -/
def generate_componentlike (tag : JsExpr) (attrs : Option JsExpr)
    (slots : Option JsExpr) : JsExpr :=
  .Call (.Ident "_createVNode")
    (match attrs, slots with
     | none, none => [tag]
     | some a, none => [tag, a]
     | none, some s => [tag, .Raw "null", s]
     | some a, some s => [tag, a, s])

/-- `CodegenContext::generate_transition_group`: the builtin's registry
reference plus its attributes and slots, assembled by the component-like
generator. -/
def generate_transition_group (e : ElementNode) : JsExpr :=
  generate_componentlike (.Ident "_TransitionGroup")
    (generate_builtin_attrs e.starting_tag.attributes)
    (generate_builtin_slots e)

/-- C10: Builtin codegen argument shapes for `transition-group`, at the four
analysed test inputs.  No attributes and no children: a bare creation call
with only the registry reference.  With attributes: one object argument
holding every attribute in source order.  With only text children: a `null`
attribute slot followed by a slots object with one quoted `default` closure
in the render-context helper around the text-creation call plus the `_: 1`
stability marker.  With both: tag reference, attribute object and slots
object, in that order. -/
theorem transition_group_codegen :
    (JsExpr.emit (generate_transition_group (.mk (.Builtin .TransitionGroup)
      ⟨"transition-group", [], none⟩ [] 0 PatchHints.empty)) =
      "_createVNode(_TransitionGroup)") ∧
    (JsExpr.emit (generate_transition_group (.mk (.Builtin .TransitionGroup)
      ⟨"transition-group",
       [.RegularAttribute "foo" "bar", .VBind ⟨some (.Str "baz"), ⟨"qux", true⟩⟩],
       none⟩ [] 0 PatchHints.empty)) =
      "_createVNode(_TransitionGroup," ++ "\x7b" ++ "foo:" ++ "\"" ++ "bar" ++ "\"" ++
        ",baz:qux" ++ "\x7d" ++ ")") ∧
    (JsExpr.emit (generate_transition_group (.mk (.Builtin .TransitionGroup)
      ⟨"transition-group", [], none⟩ [Node.Text "foobar"] 0 PatchHints.empty)) =
      "_createVNode(_TransitionGroup,null," ++ "\x7b" ++ "\"" ++ "default" ++ "\"" ++
        ":_withCtx(()=>[_createTextVNode(" ++ "\"" ++ "foobar" ++ "\"" ++
        ")]),_:1" ++ "\x7d" ++ ")") ∧
    (JsExpr.emit (generate_transition_group (.mk (.Builtin .TransitionGroup)
      ⟨"transition-group",
       [.RegularAttribute "foo" "bar", .VBind ⟨some (.Str "baz"), ⟨"qux", true⟩⟩],
       none⟩ [Node.Text "foobar"] 0 PatchHints.empty)) =
      "_createVNode(_TransitionGroup," ++ "\x7b" ++ "foo:" ++ "\"" ++ "bar" ++ "\"" ++
        ",baz:qux" ++ "\x7d" ++ "," ++ "\x7b" ++ "\"" ++ "default" ++ "\"" ++
        ":_withCtx(()=>[_createTextVNode(" ++ "\"" ++ "foobar" ++ "\"" ++
        ")]),_:1" ++ "\x7d" ++ ")") := by
  exact ⟨rfl, rfl, rfl, rfl⟩
